import Mathlib

/-!
Verification of the SHL catalog crawler (`src/script_manus.py`, with the earlier
iteration `src/old_files/crawler.py`) against its natural-language specification.

The development shallowly embeds the crawler's data model and operations:

* URLs are modelled in parsed form (`Url`): `urllib.parse.urlparse` /
  `parse_qs` / `urlencode` / `urlunparse` round-trips become projections and
  updates of an association list of query parameters, and the string tests
  `'type=2' in current_url`, `'start=' in current_url`, `'page=1' in current_url`
  become the corresponding query lookups.
* Parsed HTML documents (`BeautifulSoup` objects) are modelled as records
  carrying exactly the observations the Python code makes of them (which
  anchors a section contains, whether certain phrases occur in the page text,
  which pagination anchors exist, ...).
* The regular-expression searches of the two `extract_assessment_details`
  implementations are implemented as executable scanners over `List Char`,
  mirroring `re.search` (leftmost match, alternatives in order, the relevant
  greedy pieces do not need backtracking for these patterns).
* Network effects (`requests.get`, per-item detail fetches) are oracles passed
  as function arguments; `get_page_content` returning `None` is `Option.none`.
* The `crawl_section` loop of `script_manus.py` is embedded as a step function
  `crawlStep` over an explicit state, executed by a fuel-indexed runner that
  also records which listing URLs were fetched.
-/

namespace SHL

/-! ## Small string utilities (Python `str` helpers over `List Char`) -/

/-- Drop leading whitespace characters. -/
def dropWsL : List Char → List Char
  | [] => []
  | c :: cs => if c.isWhitespace then dropWsL cs else c :: cs

/-- `s.strip()`: drop leading and trailing whitespace. -/
def strip (s : String) : String :=
  String.mk ((dropWsL (dropWsL s.toList).reverse).reverse)

/-- `s.startswith(pre)`, by character lists. -/
def startsWithL : List Char → List Char → Bool
  | [], _ => true
  | _ :: _, [] => false
  | p :: ps, c :: cs => p = c && startsWithL ps cs

/-- Python `s.startswith(pre)`. -/
def strStartsWith (s pre : String) : Bool := startsWithL pre.toList s.toList

/-- Python's `\w` character class (ASCII reading): letters, digits, underscore. -/
def isWordChar (c : Char) : Bool := c.isAlphanum || c = '_'

/-- Case-insensitive character comparison (Python `re.IGNORECASE`). -/
def charCI (a b : Char) : Bool := a.toLower = b.toLower

/-- Case-insensitive substring test at the head: match the literal `pat`,
returning the rest of the text. -/
def matchCI : List Char → List Char → Option (List Char)
  | [], rest => some rest
  | _ :: _, [] => none
  | p :: ps, c :: cs => if charCI p c then matchCI ps cs else none

/-- Drop leading whitespace (`\s*`, greedy). -/
def skipWs : List Char → List Char
  | [] => []
  | c :: cs => if c.isWhitespace then skipWs cs else c :: cs

/-- Greedy run of decimal digits (`\d*`). -/
def takeDigits : List Char → List Char × List Char
  | [] => ([], [])
  | c :: cs =>
    if c.isDigit then
      let r := takeDigits cs
      (c :: r.1, r.2)
    else ([], c :: cs)

/-- `(\d+)`: at least one digit, greedy. -/
def takeDigits1 (l : List Char) : Option (List Char × List Char) :=
  let r := takeDigits l
  if r.1 = [] then none else some r

/-- Greedy run of word-or-whitespace characters (`[\w\s]*`). -/
def takeWordSpace : List Char → List Char × List Char
  | [] => ([], [])
  | c :: cs =>
    if isWordChar c || c.isWhitespace then
      let r := takeWordSpace cs
      (c :: r.1, r.2)
    else ([], c :: cs)

/-- `([\w\s]+)`: at least one word-or-whitespace character. -/
def takeWordSpace1 (l : List Char) : Option (List Char × List Char) :=
  let r := takeWordSpace l
  if r.1 = [] then none else some r

/-- `re.search` driver: try the position matcher `f` at every suffix, leftmost
match wins. -/
def scanFirst (f : List Char → Option α) : List Char → Option α
  | [] => f []
  | c :: cs =>
    match f (c :: cs) with
    | some r => some r
    | none => scanFirst f cs

/-- Case-insensitive substring containment (`pat.lower() in text.lower()` /
`re.search(pat, text, re.IGNORECASE)` for a literal pattern). -/
def containsCI (text pat : String) : Bool :=
  (scanFirst (matchCI pat.toList) text.toList).isSome

/-- Python `str.isdigit()` on a (stripped) value: nonempty and all digits. -/
def isDigitStr (s : String) : Bool :=
  !s.toList.isEmpty && s.toList.all Char.isDigit

/-- Accumulate a decimal value over digits, failing on any non-digit. -/
def digitsVal (acc : Nat) : List Char → Option Nat
  | [] => some acc
  | c :: cs => if c.isDigit then digitsVal (acc * 10 + (c.toNat - 48)) cs else none

/-- Python `int(s)` on the crawler's query-parameter values (plain decimal
digits; `ValueError` is `none`). -/
def strToNat (s : String) : Option Nat :=
  match s.toList with
  | [] => none
  | c :: cs => digitsVal 0 (c :: cs)

/-! ## URLs in parsed form

`urlparse` splits a URL into a base part and a query string; `parse_qs` turns
the query into a mapping.  All query parameters manipulated by the crawler
(`type`, `start`, `page`) are single-valued, so the query is an association
list of `(key, value)` pairs in order.  `urlencode`/`urlunparse` reassembly is
the identity on this representation. -/

structure Url where
  base : String
  query : List (String × String)
deriving DecidableEq

/-- `parse_qs(...)[k][0]` — first value of a query parameter, if present. -/
def getQ (u : Url) (k : String) : Option String :=
  (u.query.find? (fun p => p.1 = k)).map (fun p => p.2)

/-- Set a key in an association list (update in place, else append) —
the effect of `query_params[k] = [v]` followed by `urlencode`. -/
def setAssoc : List (String × String) → String → String → List (String × String)
  | [], k, v => [(k, v)]
  | p :: rest, k, v => if p.1 = k then (k, v) :: rest else p :: setAssoc rest k v

/-- `query_params[k] = [v]` + URL reassembly. -/
def setQ (u : Url) (k v : String) : Url :=
  { u with query := setAssoc u.query k v }

/-- Raw string append of a query parameter
(`f"{url}{'&' if '?' in url else '?'}{k}={v}"`). -/
def addQ (u : Url) (k v : String) : Url :=
  { u with query := u.query ++ [(k, v)] }

/-- `BASE_URL` of the crawler. -/
def baseUrl : String := "https://www.shl.com"

/-- `CATALOG_URL` of the crawler. -/
def catalogBase : String := "https://www.shl.com/solutions/products/product-catalog/"

/-- `f"{CATALOG_URL}?type={solution_type}&start=12"`. -/
def mkCatalogStart (solutionType : String) : Url :=
  { base := catalogBase, query := [("type", solutionType), ("start", "12")] }

/-- `urljoin(BASE_URL, href)` for item hrefs, kept at string level: an
absolute href is returned unchanged, otherwise it is resolved against the
site base. -/
def urljoinB (href : String) : String :=
  if strStartsWith href "http" then href else baseUrl ++ href

/-- Exact (case-sensitive) literal match at the head of the text. -/
def matchLit : List Char → List Char → Option (List Char)
  | [], rest => some rest
  | _ :: _, [] => none
  | p :: ps, c :: cs => if p = c then matchLit ps cs else none

/-- Exact substring containment (Python `pat in text`). -/
def containsSub (text pat : String) : Bool :=
  (scanFirst (matchLit pat.toList) text.toList).isSome

/-! ## Item records -/

/-- One assessment record, with the seven fields every record of
`script_manus.py` is initialised with (lines 347–355). -/
structure Assessment where
  name : String
  url : String
  remote_testing_support : String
  adaptive_irt_support : String
  duration : Option String
  test_types : List String
  description : Option String
deriving DecidableEq

/-- The `type_mapping` letter → category table shared by both crawlers. -/
def typeMapping (c : Char) : Option String :=
  if c = 'A' then some "Ability"
  else if c = 'B' then some "Behavioral"
  else if c = 'C' then some "Cognitive"
  else if c = 'K' then some "Knowledge"
  else if c = 'P' then some "Personality"
  else if c = 'S' then some "Situational"
  else none

/-- The fixed category vocabulary of the data model. -/
def typeVocab : List String :=
  ["Ability", "Behavioral", "Cognitive", "Knowledge", "Personality", "Situational"]

/-- `script_manus.py` lines 394–396: one `append` per letter with a mapping,
no duplicate check. -/
def smMapLetters (s : String) : List String :=
  s.toList.filterMap typeMapping

/-- `script_manus.py` lines 478–480 (detail page): append the mapped category
for each letter only if it is not yet in the list. -/
def smMapLettersDedup (acc : List String) (s : String) : List String :=
  s.toList.foldl
    (fun acc c =>
      match typeMapping c with
      | some t => if t ∈ acc then acc else acc ++ [t]
      | none => acc)
    acc

/-- `old_files/crawler.py` lines 310–313 (listing page): letter mapping with a
separate `seen_types` set; both the result and the set start empty. -/
def oldMapLettersSeen (s : String) : List String :=
  (s.toList.foldl
    (fun st c =>
      match typeMapping c with
      | some t => if t ∈ st.2 then st else (st.1 ++ [t], st.2 ++ [t])
      | none => st)
    (([] : List String), ([] : List String))).1

/-! ## Listing pages and `extract_assessment_links` (`script_manus.py` 277–400)

An `Anchor` is one `<a>` element of the listing page together with the
observations the extractor makes of its surrounding row. -/

structure Anchor where
  /-- `link.get_text(strip=True)` -/
  name : String
  /-- `link.get('href')` -/
  href : Option String
  /-- whether `link.find_parent('tr') or link.find_parent('div')` found a row -/
  hasRow : Bool
  /-- `str(cell.get('class', []))` for each `span.catalogue__circle` of the row -/
  circleClasses : List String
  /-- text of the first `div`/`td` with class `test-type`, if any -/
  typeCellText : Option String
  /-- the joined `[ABCKPS]`-bearing short strings of the row (the fallback) -/
  fallbackTypeText : String
deriving DecidableEq

inductive SectionKind | prePackaged | individual
deriving DecidableEq

structure ListingSoup where
  /-- `soup.find(string=re.compile('Pre-packaged Job Solutions', I))` found -/
  hasPrePackagedHeader : Bool
  hasIndividualHeader : Bool
  /-- `section_header.find_parent('div')` found a container -/
  headerParentDivFound : Bool
  /-- `'type=2' in soup.get_text()` -/
  textHasType2 : Bool
  textHasType1 : Bool
  /-- `section.find_all('a')` when the section is the header's parent div -/
  sectionAnchors : List Anchor
  /-- `soup.find_all('a')` when the whole page is scanned (header-less fallback) -/
  docAnchors : List Anchor
  /-- `"rate limit" in text.lower() or "too many requests" in text.lower()` -/
  hasRateLimitText : Bool
  /-- one of the `no_results_indicators` phrases occurs in the page text -/
  hasNoResultsText : Bool
  /-- one of the `last_page_indicators` phrases occurs in the page text -/
  hasEndOfResultsText : Bool
  /-- first `<a>` whose string matches `Next` (outer: anchor found; inner: its
  `href`, already resolved with `urljoin` and parsed) -/
  nextTextHref : Option (Option Url)
  /-- first `<a>` with a `next|arrow|forward` class -/
  nextClassHref : Option (Option Url)
  /-- `find_next_sibling('a')` of the `active|current` page anchor -/
  activeSiblingHref : Option (Option Url)
deriving DecidableEq

/-- `'yes' in str(cells[i].get('class',[])) or '-yes' in str(...)` — the second
test is subsumed by the first, so this is a `yes` substring test.  Index 0 is
the remote-testing circle, index 1 the adaptive/IRT circle; a missing circle
leaves the default `'No'`. -/
def flagFromCircles (circles : List String) (i : Nat) : String :=
  match circles.get? i with
  | some c => if containsSub c "yes" then "Yes" else "No"
  | none => "No"

/-- lines 372–381: prefer the `test-type` cell, else the joined fallback text. -/
def smTypeText (a : Anchor) : String :=
  match a.typeCellText with
  | some t => t
  | none => a.fallbackTypeText

/-- lines 346–396: the freshly initialised assessment for one anchor. -/
def smMkStub (a : Anchor) (url : String) : Assessment :=
  { name := a.name
    url := url
    remote_testing_support := flagFromCircles a.circleClasses 0
    adaptive_irt_support := flagFromCircles a.circleClasses 1
    duration := none
    test_types := smMapLetters (smTypeText a)
    description := none }

/-- lines 318–327: href present, resolved against the base, name nonempty and
the resolved URL on the site's origin; otherwise the anchor is skipped. -/
def linkUrl (a : Anchor) : Option String :=
  match a.href with
  | none => none
  | some h =>
    let url := urljoinB h
    if a.name = "" ∨ ¬ strStartsWith url baseUrl then none else some url

/-- Body of the per-anchor loop (lines 317–398).  The state is
`(assessments, all_found_urls, processed_urls)`. -/
def smLinkStep (s : List Assessment × List String × List String) (a : Anchor) :
    List Assessment × List String × List String :=
  match linkUrl a with
  | none => s
  | some url =>
    let found := s.2.1 ++ [url]
    if url ∈ s.2.2 then (s.1, found, s.2.2)
    else
      let proc := s.2.2 ++ [url]
      if a.hasRow then (s.1 ++ [smMkStub a url], found, proc)
      else (s.1, found, proc)

/-- lines 292–315: locate the anchors to scan — the labeled section if its
header is present (requiring the parent `div`), else the whole document when
the page text shows the right `type=` parameter, else nothing. -/
def smLocate (soup : ListingSoup) (sec : SectionKind) : Option (List Anchor) :=
  match sec with
  | .prePackaged =>
    if soup.hasPrePackagedHeader then
      if soup.headerParentDivFound then some soup.sectionAnchors else none
    else if soup.textHasType2 then some soup.docAnchors else none
  | .individual =>
    if soup.hasIndividualHeader then
      if soup.headerParentDivFound then some soup.sectionAnchors else none
    else if soup.textHasType1 then some soup.docAnchors else none

/-- `extract_assessment_links` of `script_manus.py` (lines 277–400), with the
global `processed_urls` set threaded explicitly.  Returns
`(assessments, all_found_urls, updated processed_urls)`. -/
def extract_assessment_links (soup : ListingSoup) (sec : SectionKind)
    (processedUrls : List String) : List Assessment × List String × List String :=
  match smLocate soup sec with
  | none => ([], [], processedUrls)
  | some links => links.foldl smLinkStep ([], [], processedUrls)

/-! ## Page fingerprints (`script_manus.py` 124–131) -/

/-- `generate_page_fingerprint`: the MD5 hex digest is modelled as an arbitrary
digest function argument — every claim about the fingerprint is about the
string that is hashed, `f"{url}|{','.join(sorted(assessment_urls))}"`. -/
def generate_page_fingerprint (md5hex : String → String) (url : String)
    (assessmentUrls : List String) : String :=
  md5hex (url ++ "|" ++ String.intercalate "," (assessmentUrls.insertionSort (· ≤ ·)))

/-! ## Word-boundary search (`\bpat\b`, case-insensitive)

Used by the old crawler's flag checks (`\byes\b|available` etc.).  The scan
carries the previous character so both boundaries can be checked; the pattern
itself consists of word characters only. -/

def wordSearchAux (w : List Char) : Option Char → List Char → Bool
  | prev, l =>
    let boundaryL := match prev with
      | none => true
      | some p => !isWordChar p
    let hereMatch :=
      if boundaryL then
        match matchCI w l with
        | some rest =>
          match rest with
          | [] => true
          | d :: _ => !isWordChar d
        | none => false
      else false
    hereMatch ||
      match l with
      | [] => false
      | c :: cs => wordSearchAux w (some c) cs

/-- `re.search(r'\bw\b', text, re.IGNORECASE)` for a word `w`. -/
def containsWordCI (text w : String) : Bool :=
  wordSearchAux w.toList none text.toList

/-! ## Duration extraction — `script_manus.py` (lines 421–439)

The single pattern
`(\d+)\s*minutes|time\s*=\s*(\d+)|time\s*in\s*minutes\s*=\s*(\d+)` with
`re.IGNORECASE`: leftmost match, alternatives tried in order at each
position; the matched digit group is returned. -/

def smDurAlt1 (l : List Char) : Option String := do
  let d ← takeDigits1 l
  let _ ← matchCI "minutes".toList (skipWs d.2)
  pure (String.mk d.1)

def smDurAlt2 (l : List Char) : Option String := do
  let r ← matchCI "time".toList l
  let r ← matchLit "=".toList (skipWs r)
  let d ← takeDigits1 (skipWs r)
  pure (String.mk d.1)

def smDurAlt3 (l : List Char) : Option String := do
  let r ← matchCI "time".toList l
  let r ← matchCI "in".toList (skipWs r)
  let r ← matchCI "minutes".toList (skipWs r)
  let r ← matchLit "=".toList (skipWs r)
  let d ← takeDigits1 (skipWs r)
  pure (String.mk d.1)

def smDurAt (l : List Char) : Option String :=
  (smDurAlt1 l).orElse fun _ => (smDurAlt2 l).orElse fun _ => smDurAlt3 l

def smDurSearch (s : String) : Option String := scanFirst smDurAt s.toList

/-! ## Detail pages and `extract_assessment_details` (`script_manus.py` 402–482) -/

/-- Observations of one item detail page as made by `script_manus.py`.
Each `Option` field is `some text` exactly when the corresponding
`soup.find(...)` chain (including any required `find_parent`) succeeds. -/
structure DetailSoup where
  /-- `soup.find('meta', attrs=...)['content']` -/
  metaDescription : Option String
  /-- text of the parent `div`/`section` of the `Assessment length` string -/
  lengthSectionText : Option String
  /-- `soup.get_text()` -/
  pageText : String
  /-- text of the parent of the `Remote Testing` string, if both exist -/
  remoteParentText : Option String
  /-- text of the parent of the `Adaptive|IRT` string, if both exist -/
  adaptiveParentText : Option String
  /-- text of the parent `div`/`section` of the `Test Type` string -/
  testTypeSectionText : Option String
deriving DecidableEq

/-- lines 417–419: description from the meta tag, overwriting only when the
tag is present. -/
def smDescUpdate (soup : DetailSoup) (a : Assessment) : Assessment :=
  match soup.metaDescription with
  | some d => { a with description := some (strip d) }
  | none => a

/-- lines 421–439: duration from the `Assessment length` section, falling back
to the whole page text only when still unset. -/
def smDurUpdate (soup : DetailSoup) (a : Assessment) : Assessment :=
  let a2 :=
    match soup.lengthSectionText with
    | some t =>
      match smDurSearch t with
      | some d => { a with duration := some (d ++ " minutes") }
      | none => a
    | none => a
  if a2.duration = none then
    match smDurSearch soup.pageText with
    | some d => { a2 with duration := some (d ++ " minutes") }
    | none => a2
  else a2

/-- lines 441–449: escalate the remote flag only from `'No'`, only when a
`yes` occurs near the `Remote Testing` label. -/
def smRemoteUpdate (soup : DetailSoup) (a : Assessment) : Assessment :=
  if a.remote_testing_support = "No" then
    match soup.remoteParentText with
    | some t =>
      if containsCI t "yes" then { a with remote_testing_support := "Yes" } else a
    | none => a
  else a

/-- lines 451–459: the same for the adaptive/IRT flag. -/
def smAdaptiveUpdate (soup : DetailSoup) (a : Assessment) : Assessment :=
  if a.adaptive_irt_support = "No" then
    match soup.adaptiveParentText with
    | some t =>
      if containsCI t "yes" then { a with adaptive_irt_support := "Yes" } else a
    | none => a
  else a

/-- lines 461–480: fill `test_types` from the `Test Type` section only when
still empty. -/
def smTypesUpdate (soup : DetailSoup) (a : Assessment) : Assessment :=
  if a.test_types = [] then
    match soup.testTypeSectionText with
    | some t => { a with test_types := smMapLettersDedup a.test_types t }
    | none => a
  else a

/-- `extract_assessment_details` of `script_manus.py` (lines 402–482); the
detail-page fetch (`get_page_content(assessment['url'])`) is the oracle
argument. -/
def extract_assessment_details (fetch : String → Option DetailSoup)
    (assessment : Assessment) : Assessment :=
  match fetch assessment.url with
  | none => assessment
  | some soup =>
    smTypesUpdate soup
      (smAdaptiveUpdate soup
        (smRemoteUpdate soup (smDurUpdate soup (smDescUpdate soup assessment))))

/-! ## The fetcher (`get_page_content`)

One fetch attempt is an oracle response: a body (possibly empty) or a
network-level error.  `requests.exceptions.Timeout` and every other
`RequestException` (including the `HTTPError` raised by
`raise_for_status()`) are distinguished only for documentation. -/

inductive AttemptOutcome (α : Type) where
  | ok (body : α) (emptyBody : Bool)
  | timeoutErr
  | requestErr
deriving DecidableEq

/-- Whether an attempt outcome is a usable (non-empty) response. -/
def AttemptOutcome.usable : AttemptOutcome α → Bool
  | .ok _ e => !e
  | _ => false

/-- `get_page_content` of `script_manus.py` (lines 251–275): a single
`requests.get`; any `RequestException` yields `None`; there is no retry loop
and no empty-body check. -/
def get_page_content (oracle : Nat → AttemptOutcome α) : Option α :=
  match oracle 0 with
  | .ok b _ => some b
  | _ => none

namespace Old

/-- The retry loop of `old_files/crawler.py` `get_page_content`
(lines 148–189): `attempt` is the next attempt index, the second argument the
number of attempts still allowed (`MAX_PAGE_RETRIES - attempts`).  An empty
body, a timeout and a request error all retry. -/
def fetchAux (oracle : Nat → AttemptOutcome α) (attempt : Nat) : Nat → Option α
  | 0 => none
  | n + 1 =>
    match oracle attempt with
    | .ok b false => some b
    | _ => fetchAux oracle (attempt + 1) n

/-- `get_page_content` of `old_files/crawler.py` (lines 148–189),
`MAX_PAGE_RETRIES = 3`. -/
def get_page_content (oracle : Nat → AttemptOutcome α) : Option α :=
  fetchAux oracle 0 3

/-! ## Duration extraction — `old_files/crawler.py` (lines 345–390)

`duration_patterns` is an ordered list; each pattern is searched over the
whole text in turn and the first pattern with a match wins. -/

/-- `(\d+)\s*(?:-|to)\s*(\d+)\s*minutes` at one position. -/
def rangeAt (l : List Char) : Option (String × String) := do
  let d1 ← takeDigits1 l
  let r := skipWs d1.2
  let r ← (matchLit "-".toList r).orElse fun _ => matchCI "to".toList r
  let d2 ← takeDigits1 (skipWs r)
  let _ ← matchCI "minutes".toList (skipWs d2.2)
  pure (String.mk d1.1, String.mk d2.1)

/-- `approx(?:imately)?\s*(\d+)\s*minutes` at one position. -/
def approxAt (l : List Char) : Option String := do
  let r ← matchCI "approx".toList l
  let r := (matchCI "imately".toList r).getD r
  let d ← takeDigits1 (skipWs r)
  let _ ← matchCI "minutes".toList (skipWs d.2)
  pure (String.mk d.1)

/-- `(\d+)\s*minutes` at one position. -/
def nMinAt (l : List Char) : Option String := do
  let d ← takeDigits1 l
  let _ ← matchCI "minutes".toList (skipWs d.2)
  pure (String.mk d.1)

/-- `label:?\s*([\w\s]+)` at one position. -/
def labeledAt (label : String) (l : List Char) : Option String := do
  let r ← matchCI label.toList l
  let r := (matchLit ":".toList r).getD r
  let w ← takeWordSpace1 (skipWs r)
  pure (String.mk w.1)

def searchRangeMinutes (s : String) : Option (String × String) := scanFirst rangeAt s.toList

def searchApproxMinutes (s : String) : Option String := scanFirst approxAt s.toList

def searchNMinutes (s : String) : Option String := scanFirst nMinAt s.toList

def searchLabeled (label : String) (s : String) : Option String :=
  scanFirst (labeledAt label) s.toList

/-- Which pattern of `duration_patterns` matched, with its groups. -/
inductive DurPat where
  | range (x y : String)
  | single (v : String)
deriving DecidableEq

/-- The `for pattern in duration_patterns` loop: first matching pattern wins. -/
def durMatch (s : String) : Option DurPat :=
  match searchRangeMinutes s with
  | some r => some (.range r.1 r.2)
  | none =>
    match searchApproxMinutes s with
    | some v => some (.single v)
    | none =>
      match searchNMinutes s with
      | some v => some (.single v)
      | none =>
        match searchLabeled "assessment length" s with
        | some v => some (.single v)
        | none => (searchLabeled "duration" s).map DurPat.single

/-- Formatting of a match inside the `Assessment length` section
(lines 363–372): a range is rendered `x-y minutes`; a digit group becomes
`v minutes`; other text is kept only when it mentions `minute`. -/
def fmtSection : DurPat → Option String
  | .range x y => some (x ++ "-" ++ y ++ " minutes")
  | .single v =>
    let v := strip v
    if isDigitStr v then some (v ++ " minutes")
    else if containsCI v "minute" then some v
    else none

/-- Formatting of a whole-page match (lines 381–388): short free text
(`len < 20`) is also kept. -/
def fmtPage : DurPat → Option String
  | .range x y => some (x ++ "-" ++ y ++ " minutes")
  | .single v =>
    let v := strip v
    if isDigitStr v then some (v ++ " minutes")
    else if containsCI v "minute" || v.length < 20 then some v
    else none

/-! ## Detail pages and `extract_assessment_details`
(`old_files/crawler.py` 320–456) -/

structure OldDetailSoup where
  metaDescription : Option String
  /-- text of the parent of the `Assessment length` header, if both exist -/
  lengthSectionText : Option String
  /-- `soup.get_text(" ", strip=True)` -/
  pageText : String
  remoteParentText : Option String
  adaptiveParentText : Option String
  /-- text of the `Measures:`/`Test Type` search area, if found -/
  measuresAreaText : Option String
deriving DecidableEq

/-- `remote_keywords` (line 395). -/
def remoteKeywords : List String :=
  ["remote proctoring available", "remotely proctored", "online invigilation"]

/-- `adaptive_keywords` (line 409). -/
def adaptiveKeywords : List String :=
  ["adaptive", "computer adaptive test", "cat", "item response theory", "irt"]

/-- `keyword_mapping` (lines 439–445), in dict insertion order. -/
def keywordMapping : List (String × String) :=
  [("ability", "Ability"), ("cognitive", "Cognitive"), ("reasoning", "Ability"),
   ("behavioral", "Behavioral"), ("behavioural", "Behavioral"),
   ("work style", "Behavioral"), ("competencies", "Behavioral"),
   ("knowledge", "Knowledge"), ("skills", "Knowledge"), ("technical", "Knowledge"),
   ("personality", "Personality"), ("motivation", "Personality"),
   ("preferences", "Personality"),
   ("situational judgment", "Situational"), ("scenario", "Situational")]

/-- The keyword → category loop (lines 446–450): append each category at most
once (via the `seen_types` set), in mapping order. -/
def keywordTypes (searchText : String) : List String :=
  (keywordMapping.foldl
    (fun st kv =>
      if containsCI searchText kv.1 then
        if kv.2 ∈ st.2 then st else (st.1 ++ [kv.2], st.2 ++ [kv.2])
      else st)
    (([] : List String), ([] : List String))).1

/-- The record the old crawler's detail extraction produces.  `test_types` is
`none` exactly when line 454 (`del assessment['test_types']`) removed the
key. -/
structure OldRecord where
  name : String
  url : String
  remote_testing_support : String
  adaptive_irt_support : String
  duration : Option String
  description : Option String
  details_extracted : Bool
  test_types : Option (List String)
deriving DecidableEq

/-- lines 341–343: description update. -/
def descOf (soup : OldDetailSoup) (d0 : Option String) : Option String :=
  match soup.metaDescription with
  | some d => some (strip d)
  | none => d0

/-- lines 345–390: duration — the `Assessment length` section first; the
whole-page search runs only when no pattern matched there. -/
def durOf (soup : OldDetailSoup) (d0 : Option String) : Option String :=
  let sectionRes : Option String × Bool :=
    match soup.lengthSectionText with
    | some t =>
      match durMatch t with
      | some m =>
        (match fmtSection m with
         | some v => some v
         | none => d0, true)
      | none => (d0, false)
    | none => (d0, false)
  if sectionRes.2 then sectionRes.1
  else
    match durMatch soup.pageText with
    | some m =>
      match fmtPage m with
      | some v => some v
      | none => sectionRes.1
    | none => sectionRes.1

/-- lines 392–405: remote flag escalation. -/
def remoteOf (soup : OldDetailSoup) (r0 : String) : String :=
  if r0 ≠ "Yes" then
    if remoteKeywords.any (fun kw => containsCI soup.pageText kw) then "Yes"
    else if r0 = "No" then
      match soup.remoteParentText with
      | some t =>
        if containsWordCI t "yes" || containsCI t "available" then "Yes" else r0
      | none => r0
    else r0
  else r0

/-- lines 407–423: adaptive/IRT flag escalation. -/
def adaptiveOf (soup : OldDetailSoup) (r0 : String) : String :=
  if r0 ≠ "Yes" then
    if containsCI soup.pageText "computer adaptive" then "Yes"
    else if adaptiveKeywords.any (fun kw => containsCI soup.pageText kw) then "Yes"
    else if r0 = "No" then
      match soup.adaptiveParentText with
      | some t =>
        if containsWordCI t "yes" || containsCI t "true" || containsCI t "enabled" then "Yes"
        else r0
      | none => r0
    else r0
  else r0

/-- lines 426–450: fill `test_types` from the measures area only when empty. -/
def typesOf (soup : OldDetailSoup) (tt0 : List String) : List String :=
  if tt0 = [] then
    match soup.measuresAreaText with
    | some t => keywordTypes t
    | none => tt0
  else tt0

/-- `extract_assessment_details` of `old_files/crawler.py` (lines 320–456). -/
def extract_assessment_details (fetch : String → Option OldDetailSoup)
    (a : Assessment) : OldRecord :=
  match fetch a.url with
  | none =>
    -- lines 332–336: fetch failure returns the stub unchanged with an
    -- explicit incompleteness marker; `test_types` is still present.
    { name := a.name, url := a.url
      remote_testing_support := a.remote_testing_support
      adaptive_irt_support := a.adaptive_irt_support
      duration := a.duration, description := a.description
      details_extracted := false, test_types := some a.test_types }
  | some soup =>
    let tts := typesOf soup a.test_types
    { name := a.name, url := a.url
      remote_testing_support := remoteOf soup a.remote_testing_support
      adaptive_irt_support := adaptiveOf soup a.adaptive_irt_support
      duration := durOf soup a.duration
      description := descOf soup a.description
      details_extracted := true
      -- lines 452–454: `del assessment['test_types']` when still empty
      test_types := if tts = [] then none else some tts }

/-! ## `extract_assessment_links` of `old_files/crawler.py` (191–318)

Every branch of the container-location logic (lines 204–224) ends in
`find_all('a', href=re.compile('/solutions/products/'))` over some container;
the located anchor list is the input. -/

structure OldAnchor where
  name : String
  href : Option String
  hasRow : Bool
  /-- `cell.get('class', [])` for each `span.catalogue__circle` of the row —
  the old crawler tests membership in the class *list* -/
  circleClassLists : List (List String)
  typeCellText : Option String
  /-- `row.get_text(separator=' ', strip=True)` for the fallback -/
  rowText : String
deriving DecidableEq

/-- `re.findall(r'\b([ABCKPS])\b', row_text)`: standalone category letters. -/
def standaloneAux : Option Char → List Char → List Char
  | _, [] => []
  | prev, c :: cs =>
    let boundaryL := match prev with
      | none => true
      | some p => !isWordChar p
    let boundaryR := match cs with
      | [] => true
      | d :: _ => !isWordChar d
    if (c ∈ (['A', 'B', 'C', 'K', 'P', 'S'] : List Char)) && boundaryL && boundaryR then
      c :: standaloneAux (some c) cs
    else standaloneAux (some c) cs

/-- lines 231–243: name nonempty, site-relative href, resolved URL under the
product path. -/
def oldLinkUrl (a : OldAnchor) : Option String :=
  match a.href with
  | none => none
  | some h =>
    if a.name = "" ∨ ¬ strStartsWith h "/" then none
    else
      let url := urljoinB h
      if strStartsWith url (baseUrl ++ "/solutions/products/") then some url else none

/-- `'yes' in cells[i].get('class', []) or '-yes' in ...`: membership in the
class token list. -/
def oldFlag (ls : List (List String)) (i : Nat) : String :=
  match ls.get? i with
  | some cls => if "yes" ∈ cls ∨ "-yes" ∈ cls then "Yes" else "No"
  | none => "No"

def oldTypeText (a : OldAnchor) : String :=
  match a.typeCellText with
  | some t => t
  | none => String.mk (standaloneAux none a.rowText.toList)

/-- lines 259–264: row not found — defaults with `Unknown` flags. -/
def unknownStub (a : OldAnchor) (url : String) : Assessment :=
  { name := a.name, url := url
    remote_testing_support := "Unknown", adaptive_irt_support := "Unknown"
    duration := none, test_types := [], description := none }

/-- lines 267–316: the initialised record for an anchor with a row. -/
def oldMkStub (a : OldAnchor) (url : String) : Assessment :=
  { name := a.name, url := url
    remote_testing_support := oldFlag a.circleClassLists 0
    adaptive_irt_support := oldFlag a.circleClassLists 1
    duration := none
    test_types := oldMapLettersSeen (oldTypeText a)
    description := none }

/-- Body of the per-anchor loop (lines 231–316).  The state is
`(assessments, processed_urls, processed_in_batch)`. -/
def oldLinkStep (s : List Assessment × List String × List String) (a : OldAnchor) :
    List Assessment × List String × List String :=
  match oldLinkUrl a with
  | none => s
  | some url =>
    if url ∈ s.2.1 ∨ url ∈ s.2.2 then s
    else
      let proc := s.2.1 ++ [url]
      let batch := s.2.2 ++ [url]
      if a.hasRow then (s.1 ++ [oldMkStub a url], proc, batch)
      else (s.1 ++ [unknownStub a url], proc, batch)

/-- `extract_assessment_links` of `old_files/crawler.py` over the located
anchors; returns `(assessments, updated processed_urls)`. -/
def extract_assessment_links (links : List OldAnchor) (processedUrls : List String) :
    List Assessment × List String :=
  let r := links.foldl oldLinkStep ([], processedUrls, [])
  (r.1, r.2.1)

end Old

/-! ## Pagination resolution — `handle_pagination` (`script_manus.py` 507–645)

The three anchor strategies are the `nextTextHref` / `nextClassHref` /
`activeSiblingHref` observations of the listing page (first candidate each);
method 4 is the arithmetic `start` continuation.  An anchor href is already
resolved (`urljoin`) and parsed. -/

/-- The first next-link candidate: method 1, then method 2, then method 3
(lines 529–550).  `some none` is an anchor without a usable `href`. -/
def smNextLink (soup : ListingSoup) : Option (Option Url) :=
  (soup.nextTextHref.orElse fun _ =>
    (soup.nextClassHref.orElse fun _ => soup.activeSiblingHref))

/-- `handle_pagination` of `script_manus.py` (lines 507–645).

When method 4's `int(...)` raises (non-numeric `start` value) the code falls
past the anchor block (`next_link` is `None`), past line 639 (`'start='` *is*
in the URL since the parameter exists), to the final `return None`
(line 645) — modelled directly as `none`. -/
def handle_pagination (soup : ListingSoup) (currentUrl : Url) (solutionType : String) :
    Option Url :=
  match smNextLink soup with
  | some (some href) =>
    -- lines 613–636: force the type parameter, reject a self-loop
    let nextU := setQ href "type" solutionType
    if nextU = currentUrl then none else some nextU
  | some none =>
    -- the anchor has no usable href: line 613 fails, fall to 639–642,
    -- which appends `start=12` WITHOUT forcing the type parameter
    if getQ currentUrl "start" = none then some (addQ currentUrl "start" "12")
    else none
  | none =>
    -- method 4 (lines 552–610)
    match getQ currentUrl "start" with
    | some s =>
      match strToNat s with
      | some start =>
        if 500 < start && soup.hasEndOfResultsText then none
        else
          let nextU := setQ (setQ currentUrl "start" (toString (start + 12))) "type" solutionType
          if nextU = currentUrl then none else some nextU
      | none => none
    | none =>
      if ("page", "1") ∈ currentUrl.query then
        some (setQ (setQ currentUrl "start" "12") "type" solutionType)
      else some (mkCatalogStart solutionType)

namespace Old

/-- One pagination anchor of the old crawler with the checks of
lines 475–486. -/
structure OldPagAnchor where
  href : Option Url
  disabledAttr : Bool
  /-- href starts with `javascript:` or `#` -/
  hrefInvalid : Bool
deriving DecidableEq

/-- `handle_pagination` of `old_files/crawler.py` (lines 458–509);
`nextLink` is the first match of the `rel=next` / text / class chain
(lines 471–473). -/
def handle_pagination (nextLink : Option OldPagAnchor) (currentUrl : Url)
    (solutionType : String) : Option Url :=
  match nextLink with
  | none => none
  | some ⟨none, _, _⟩ => none
  | some ⟨some h, dis, inv⟩ =>
    if dis then none
    else if inv then none
    else if h = currentUrl then none
    else some (setQ h "type" solutionType)

end Old

/-! ## The section crawl loop — `crawl_section` (`script_manus.py` 647–1076)

The loop body becomes a step function over an explicit state; the per-page
fetch is an oracle indexed by a running fetch counter.  Each step reports the
listing URL it fetched, if any, so resource bounds can be stated about runs.
`max_pages` and both global sets are part of the model; the per-item detail
enrichment inside the loop (line 905) is an oracle, and the periodic
`save_partial_results` calls have no observable effect on the state. -/

structure CrawlSt where
  currentUrl : Option Url
  pageNum : Nat
  emptyPageCount : Nat
  /-- `visited_urls` dict: per-section URL visit counters -/
  visitedUrls : List (Url × Nat)
  /-- global `processed_pages` set -/
  processedPages : List Url
  /-- global `processed_urls` set -/
  processedUrls : List String
  /-- global `all_assessments` -/
  allAssessments : List Assessment
  sectionAssessments : List Assessment
  /-- the section's `..._last_page` entry of `crawl_state` -/
  statePage : Option Url
  /-- the section's `..._page_num` entry of `crawl_state` -/
  statePageNum : Nat
  /-- running index of listing-page fetches (oracle clock) -/
  fetchTick : Nat
deriving DecidableEq

structure CrawlEnv where
  /-- `get_page_content` for listing pages, indexed by the fetch clock -/
  fetch : Nat → Url → Option ListingSoup
  /-- `extract_assessment_details` for the items of a page -/
  enrichOracle : Assessment → Assessment
  maxPages : Option Nat
  sectionKind : SectionKind
  solutionType : String

/-- `visited_urls.get(url, 0)`. -/
def lookupCount (l : List (Url × Nat)) (u : Url) : Nat :=
  match l.find? (fun p => p.1 = u) with
  | some p => p.2
  | none => 0

/-- `visited_urls[url] = visited_urls.get(url, 0) + 1`. -/
def bumpVisit : List (Url × Nat) → Url → List (Url × Nat)
  | [], u => [(u, 1)]
  | p :: rest, u => if p.1 = u then (p.1, p.2 + 1) :: rest else p :: bumpVisit rest u

/-- Marking the section complete: `..._last_page = None`,
`..._page_num = 1` (plus `save_crawl_state`). -/
def markComplete (st : CrawlSt) : CrawlSt :=
  { st with statePage := none, statePageNum := 1 }

/-- `max_empty_pages` (line 678). -/
def maxEmptyPages : Nat := 3

/-- `max_revisits` (line 682). -/
def maxRevisits : Nat := 2

/-- The fixed-URL reconstruction of lines 837–841 / 848–852:
`CATALOG_URL?type=t`, carrying over a numeric `start` if the current URL has
one. -/
def fixTypeUrl (cur : Url) (t : String) : Url :=
  { base := catalogBase
    query := [("type", t)] ++
      (match (getQ cur "start").bind strToNat with
       | some n => [("start", toString n)]
       | none => []) }

/-- One step either continues the `while` loop or leaves it; the `Option Url`
is the listing URL fetched during the step, if any. -/
inductive StepRes where
  | halt : Option Url → CrawlSt → StepRes
  | cont : Option Url → CrawlSt → StepRes
deriving DecidableEq

/-- The fetch event of a step. -/
def StepRes.evOf : StepRes → Option Url
  | .halt e _ => e
  | .cont e _ => e

/-- The post-step state. -/
def StepRes.stOf : StepRes → CrawlSt
  | .halt _ s => s
  | .cont _ s => s

/-- Lines 1037–1046: the final revisit check before following `next_url`. -/
def followNext (ev : Option Url) (st : CrawlSt) (nu : Url) : StepRes :=
  if maxRevisits ≤ lookupCount st.visitedUrls nu then .halt ev (markComplete st)
  else .cont ev { st with currentUrl := some nu, pageNum := st.pageNum + 1 }

/-- Lines 890–1052: the tail of a successful page iteration — enrichment and
appending of the page's assessments, the end-of-section check of line 925,
pagination resolution and the loop-breaking checks around it.  `ev` is the
fetch event of this iteration. -/
def crawlTail (env : CrawlEnv) (soup : ListingSoup) (current : Url)
    (pageAssessments : List Assessment) (allFound : List String)
    (ev : Option Url) (st : CrawlSt) : StepRes :=
  -- lines 903–912: enrich each new item and append it to both lists
  let enriched := pageAssessments.map env.enrichOracle
  let st := { st with
    allAssessments := st.allAssessments ++ enriched
    sectionAssessments := st.sectionAssessments ++ enriched }
  -- line 925
  if 1 < st.emptyPageCount ∨ (allFound = [] ∧ 10 < st.pageNum) then
    .halt ev (markComplete st)
  else
    -- line 940
    let next0 := handle_pagination soup current env.solutionType
    -- lines 943–994: loop-breaking / forced jump on an already revisited next URL
    let next943 : Option (Option Url) :=
      match next0 with
      | some nu =>
        if maxRevisits ≤ lookupCount st.visitedUrls nu then
          match (getQ current "start").bind strToNat with
          | some n =>
            let force := setQ current "start" (toString (n + 24))
            if force ≠ current ∧ some force ≠ next0 then some (some force) else none
          | none => none
        else some next0
      | none => some none
    match next943 with
    | none => .halt ev (markComplete st)
    | some next1 =>
      -- lines 998–1001: force first pagination after a productive first page
      let next2 :=
        if next1 = none ∧ st.pageNum = 1 ∧ pageAssessments ≠ [] then
          some (mkCatalogStart env.solutionType)
        else next1
      -- lines 1004–1033
      match next2 with
      | some nu => followNext ev st nu
      | none =>
        if st.sectionAssessments ≠ [] ∧ st.emptyPageCount = 0 then
          .halt ev (markComplete st)
        else if 0 < st.emptyPageCount then
          match (getQ current "start").bind strToNat with
          | some n => followNext ev st (setQ current "start" (toString (n + 12)))
          | none => .halt ev st
        else
          -- `next_url` stays `None`: line 1048 sets `current_url = None`, the
          -- `while` condition then ends the loop
          .cont ev { st with currentUrl := none, pageNum := st.pageNum + 1 }

/-- The fetched-page part of an iteration (lines 767–887): fetch failure
handling, extraction, the empty-page block, then `crawlTail`. -/
def crawlFetch (env : CrawlEnv) (current : Url) (st : CrawlSt) : StepRes :=
  match env.fetch st.fetchTick current with
  | none =>
    -- lines 769–799
    let st := { st with fetchTick := st.fetchTick + 1,
                        emptyPageCount := st.emptyPageCount + 1 }
    if maxEmptyPages ≤ st.emptyPageCount then .halt (some current) st
    else
      match (getQ current "start").bind strToNat with
      | some n =>
        .cont (some current)
          { st with currentUrl := some (setQ current "start" (toString (n + 12)))
                    pageNum := st.pageNum + 1 }
      | none => .halt (some current) st
  | some soup =>
    -- line 802
    let st := { st with fetchTick := st.fetchTick + 1, emptyPageCount := 0 }
    -- lines 805–810
    let ex := extract_assessment_links soup env.sectionKind st.processedUrls
    let pageAssessments := ex.1
    let allFound := ex.2.1
    let st := { st with processedUrls := ex.2.2
                        processedPages := st.processedPages ++ [current] }
    if allFound = [] then
      -- lines 820–887
      if soup.hasRateLimitText then .cont (some current) st
      else if env.sectionKind = .prePackaged ∧ ¬ (("type", "2") ∈ current.query) then
        .cont (some current) { st with currentUrl := some (fixTypeUrl current "2") }
      else if env.sectionKind = .individual ∧ ¬ (("type", "1") ∈ current.query) then
        .cont (some current) { st with currentUrl := some (fixTypeUrl current "1") }
      else if soup.hasNoResultsText then .halt (some current) st
      else if 10 < st.pageNum ∧ (allFound = [] ∨ pageAssessments = []) then
        .halt (some current) (markComplete st)
      else
        let st := { st with emptyPageCount := st.emptyPageCount + 1 }
        if maxEmptyPages ≤ st.emptyPageCount then .halt (some current) st
        else crawlTail env soup current pageAssessments allFound (some current) st
    else crawlTail env soup current pageAssessments allFound (some current) st

/-- One iteration of the `while` loop of `crawl_section` (lines 695–1052),
including the loop condition itself. -/
def crawlStep (env : CrawlEnv) (st : CrawlSt) : StepRes :=
  match st.currentUrl with
  | none => .halt none st
  | some current =>
    -- loop condition: `max_pages is None or page_num <= max_pages`
    if (match env.maxPages with
        | some m => decide (m < st.pageNum)
        | none => false) = true then .halt none st
    else if current ∈ st.processedPages then
      -- lines 697–727: skip an already processed page
      match (getQ current "start").bind strToNat with
      | some n =>
        .cont none
          { st with
              currentUrl :=
                some (setQ (setQ current "start" (toString (n + 12))) "type" env.solutionType)
              pageNum := st.pageNum + 1 }
      | none => .halt none (markComplete st)
    else
      -- lines 729–748: visit counting and loop detection
      let visited := bumpVisit st.visitedUrls current
      if maxRevisits < lookupCount visited current then
        .halt none (markComplete { st with visitedUrls := visited })
      else
        -- lines 753–760: record progress in the crawl state before fetching
        let st := { st with visitedUrls := visited
                            statePage := some current
                            statePageNum := st.pageNum }
        crawlFetch env current st

/-- Run the loop with the given fuel, then apply the epilogue of
lines 1065–1074 (`crawl_section` always marks the section complete on exit).
Returns `none` when the fuel ran out mid-loop, and the listing URLs fetched
so far. -/
def runCrawl (env : CrawlEnv) : Nat → CrawlSt → Option CrawlSt × List Url
  | 0, _ => (none, [])
  | fuel + 1, st =>
    match crawlStep env st with
    | .halt e st' => (some (markComplete st'), e.toList)
    | .cont e st' =>
      let r := runCrawl env fuel st'
      (r.1, e.toList ++ r.2)

/-! ## The dataset pipeline

The dataset-building behaviour of the orchestrator, page by page: on each
page, `extract_assessment_links` is run against the current global
`processed_urls` set, each returned stub is enriched by
`extract_assessment_details` and appended to the dataset (lines 805–907; the
same pattern appears in the main-page seeding, lines 1136–1165).  A crawler
run over a catalog is the fold of this step over the visited listing pages;
`load_existing_assessments` (lines 186–218) seeds `processed_urls` for the
next run from the persisted dataset's `url` fields. -/

def smPageStep (detail : String → Option DetailSoup)
    (st : List Assessment × List String) (page : ListingSoup × SectionKind) :
    List Assessment × List String :=
  let ex := extract_assessment_links page.1 page.2 st.2
  (st.1 ++ ex.1.map (extract_assessment_details detail), ex.2.2)

/-- One crawler run over the pages of a catalog, starting from a dataset and
a `processed_urls` set. -/
def smCrawlRun (detail : String → Option DetailSoup)
    (catalog : List (ListingSoup × SectionKind)) (st : List Assessment × List String) :
    List Assessment × List String :=
  catalog.foldl (smPageStep detail) st

/-- The `url` column of a dataset. -/
def urlsOf (ds : List Assessment) : List String := ds.map Assessment.url

/-! ## Evidence predicates for the flag escalations

Exactly the conditions under which the respective code path writes `'Yes'`. -/

/-- `script_manus.py` lines 443–449: a `yes` near the `Remote Testing` label. -/
def smRemoteEvidence (soup : DetailSoup) : Prop :=
  ∃ t, soup.remoteParentText = some t ∧ containsCI t "yes" = true

/-- `script_manus.py` lines 453–459. -/
def smAdaptiveEvidence (soup : DetailSoup) : Prop :=
  ∃ t, soup.adaptiveParentText = some t ∧ containsCI t "yes" = true

namespace Old

/-- `old_files/crawler.py` lines 394–405: explicit keyword phrase anywhere on
the page, or an affirmative word near the `Remote Testing` label. -/
def oldRemoteEvidence (soup : OldDetailSoup) : Prop :=
  (∃ kw ∈ remoteKeywords, containsCI soup.pageText kw = true) ∨
  (∃ t, soup.remoteParentText = some t ∧
    (containsWordCI t "yes" || containsCI t "available") = true)

/-- `old_files/crawler.py` lines 409–423. -/
def oldAdaptiveEvidence (soup : OldDetailSoup) : Prop :=
  containsCI soup.pageText "computer adaptive" = true ∨
  (∃ kw ∈ adaptiveKeywords, containsCI soup.pageText kw = true) ∨
  (∃ t, soup.adaptiveParentText = some t ∧
    (containsWordCI t "yes" || containsCI t "true" || containsCI t "enabled") = true)

end Old

/-! ## Concrete scenes used by counterexamples and witnesses -/

/-- A listing page with no anchors, no headers and no pagination controls. -/
def blankSoup : ListingSoup :=
  { hasPrePackagedHeader := false, hasIndividualHeader := false
    headerParentDivFound := false, textHasType2 := false, textHasType1 := false
    sectionAnchors := [], docAnchors := []
    hasRateLimitText := false, hasNoResultsText := false, hasEndOfResultsText := false
    nextTextHref := none, nextClassHref := none, activeSiblingHref := none }

/-- A detail page whose body text contains both a duration range and a single
duration value. -/
def c4text : String := "This test takes 15-20 minutes. Another takes 30 minutes."

def c4soup : DetailSoup :=
  { metaDescription := none, lengthSectionText := none, pageText := c4text
    remoteParentText := none, adaptiveParentText := none, testTypeSectionText := none }

def c4oldSoup : Old.OldDetailSoup :=
  { metaDescription := none, lengthSectionText := none, pageText := c4text
    remoteParentText := none, adaptiveParentText := none, measuresAreaText := none }

def c4stub : Assessment :=
  { name := "X", url := "https://www.shl.com/solutions/products/x/"
    remote_testing_support := "No", adaptive_irt_support := "No"
    duration := none, test_types := ["Knowledge"], description := none }

/-- A detail page with no extractable information at all. -/
def c5soup : Old.OldDetailSoup :=
  { metaDescription := none, lengthSectionText := none, pageText := "x"
    remoteParentText := none, adaptiveParentText := none, measuresAreaText := none }

def c5stub : Assessment :=
  { name := "Y", url := "https://www.shl.com/solutions/products/y/"
    remote_testing_support := "No", adaptive_irt_support := "No"
    duration := none, test_types := [], description := none }

/-- An anchor row ready for listing extraction, one per scene. -/
def c5anchor : Anchor :=
  { name := "W", href := some "/solutions/products/w/", hasRow := true
    circleClasses := ["catalogue__circle -yes"], typeCellText := some "KP"
    fallbackTypeText := "" }

def c5wsoup : ListingSoup :=
  { blankSoup with hasPrePackagedHeader := true, headerParentDivFound := true
                   sectionAnchors := [c5anchor] }

/-- A fetch-attempt sequence that fails once and then succeeds. -/
def c7oracle : Nat → AttemptOutcome Nat :=
  fun i => if i = 0 then .requestErr else .ok 42 false

/-- A listing page whose only pagination control is a `Next` anchor without a
usable `href`. -/
def c8soup : ListingSoup := { blankSoup with nextTextHref := some none }

/-- A current URL with no query parameters at all. -/
def c8cur : Url := { base := catalogBase, query := [] }

/-- A current URL carrying only a numeric `start` parameter. -/
def c8wcur : Url := { base := catalogBase, query := [("start", "0")] }

/-- A row whose test-type cell reads `AA`. -/
def c9anchor : Anchor :=
  { name := "Z", href := some "/solutions/products/z/", hasRow := true
    circleClasses := [], typeCellText := some "AA", fallbackTypeText := "" }

def c9soup : ListingSoup :=
  { blankSoup with hasPrePackagedHeader := true, headerParentDivFound := true
                   sectionAnchors := [c9anchor] }

/-- The C2 scene: a section run in which every listing fetch fails. -/
def c2env : CrawlEnv :=
  { fetch := fun _ _ => none, enrichOracle := id, maxPages := none
    sectionKind := .prePackaged, solutionType := "2" }

def c2url : Url := { base := catalogBase, query := [("type", "2"), ("start", "12")] }

def c2st : CrawlSt :=
  { currentUrl := some c2url, pageNum := 1, emptyPageCount := 0, visitedUrls := []
    processedPages := [], processedUrls := [], allAssessments := []
    sectionAssessments := [], statePage := some c2url, statePageNum := 1, fetchTick := 0 }

/-- A degenerate environment whose page budget is already exhausted. -/
def c2wenv : CrawlEnv :=
  { fetch := fun _ _ => none, enrichOracle := id, maxPages := some 0
    sectionKind := .individual, solutionType := "1" }

/-- The C6 witness scene: the pagination resolver always points back at the
section's start URL. -/
def c6url : Url := { base := catalogBase, query := [("type", "2")] }

def c6soup : ListingSoup :=
  { blankSoup with hasPrePackagedHeader := true, headerParentDivFound := true
                   textHasType2 := true
                   nextTextHref := some (some c6url) }

def c6env : CrawlEnv :=
  { fetch := fun _ _ => some c6soup, enrichOracle := id, maxPages := none
    sectionKind := .prePackaged, solutionType := "2" }

def c6st : CrawlSt :=
  { currentUrl := some c6url, pageNum := 1, emptyPageCount := 0, visitedUrls := []
    processedPages := [], processedUrls := [], allAssessments := []
    sectionAssessments := [], statePage := some c6url, statePageNum := 1, fetchTick := 0 }

/-- A state whose current URL has already been counted twice. -/
def c6st2 : CrawlSt := { c6st with visitedUrls := [(c6url, 2)] }

/-- The C1 witness scene: a one-page catalog carrying one fresh item. -/
def c1anchor : Anchor :=
  { name := "V", href := some "/solutions/products/v/", hasRow := true
    circleClasses := [], typeCellText := none, fallbackTypeText := "A" }

def c1soup : ListingSoup :=
  { blankSoup with hasIndividualHeader := true, headerParentDivFound := true
                   sectionAnchors := [c1anchor] }

def c1catalog : List (ListingSoup × SectionKind) := [(c1soup, .individual)]

/-- A detail page whose `Test Type` section reads `AAB`. -/
def c9wsoup : DetailSoup :=
  { metaDescription := none, lengthSectionText := none, pageText := ""
    remoteParentText := none, adaptiveParentText := none
    testTypeSectionText := some "AAB" }

/-- The C3 witness scene: a detail page with affirmative text near both
labels, and a stub that already says `Yes` for remote testing. -/
def c3soup : DetailSoup :=
  { metaDescription := none, lengthSectionText := none, pageText := ""
    remoteParentText := some "Remote Testing: Yes", adaptiveParentText := none
    testTypeSectionText := none }

def c3stub : Assessment :=
  { name := "R", url := "https://www.shl.com/solutions/products/r/"
    remote_testing_support := "Yes", adaptive_irt_support := "No"
    duration := none, test_types := [], description := none }

/-! # Theorems -/

/-! ## Query-parameter lemmas -/

theorem getQ_setQ_self (u : Url) (k v : String) : getQ (setQ u k v) k = some v := by
  unfold getQ setQ
  induction u.query with
  | nil => simp [setAssoc]
  | cons p rest ih =>
    by_cases h : p.1 = k
    · simp [setAssoc, h, List.find?]
    · simpa [setAssoc, h, List.find?] using ih

theorem getQ_mkCatalogStart_type (sol : String) :
    getQ (mkCatalogStart sol) "type" = some sol := by
  simp [getQ, mkCatalogStart, List.find?]

/-! ## C10 — page fingerprints are insensitive to item-URL order -/

theorem sort_eq_of_perm {l₁ l₂ : List String} (h : l₁.Perm l₂) :
    l₁.insertionSort (· ≤ ·) = l₂.insertionSort (· ≤ ·) :=
  List.eq_of_perm_of_sorted
    (((l₁.perm_insertionSort (· ≤ ·)).trans h).trans
      (l₂.perm_insertionSort (· ≤ ·)).symm)
    (List.sorted_insertionSort _ _) (List.sorted_insertionSort _ _)

/-- C10: `generate_page_fingerprint` sorts the assessment URLs before joining
and hashing, so for every digest function, page URL and pair of
permutation-equivalent URL lists it returns the same identifier: the
fingerprint depends only on the page URL and the multiset of item URLs. -/
theorem c10_fingerprint_perm_invariant (md5hex : String → String) (url : String)
    (l₁ l₂ : List String) (h : l₁.Perm l₂) :
    generate_page_fingerprint md5hex url l₁ = generate_page_fingerprint md5hex url l₂ := by
  unfold generate_page_fingerprint
  rw [sort_eq_of_perm h]

/-- C10 witness: the fingerprint of a two-element list and of its reversal
coincide. -/
theorem c10_witness :
    generate_page_fingerprint id "https://www.shl.com/p" ["b", "a"] =
      generate_page_fingerprint id "https://www.shl.com/p" ["a", "b"] :=
  c10_fingerprint_perm_invariant id "https://www.shl.com/p" ["b", "a"] ["a", "b"]
    (List.Perm.swap "a" "b" [])

/-! ## C7 — fetch retries

`script_manus.py`'s `get_page_content` makes a *single* attempt (no retry
loop, no empty-body check) and returns `None` on the first error, so the
claimed 3-attempt behaviour fails on it; the old crawler's fetcher has
exactly the claimed behaviour. -/

namespace Old

theorem fetchAux_step (oracle : Nat → AttemptOutcome α) (a n : Nat)
    (hu : (oracle a).usable = false) :
    fetchAux oracle a (n + 1) = fetchAux oracle (a + 1) n := by
  rcases hc : oracle a with ⟨b, e⟩ | _ | _
  · cases e with
    | false => rw [hc] at hu; simp [AttemptOutcome.usable] at hu
    | true => simp [fetchAux, hc]
  · simp [fetchAux, hc]
  · simp [fetchAux, hc]

theorem fetchAux_none_iff (oracle : Nat → AttemptOutcome α) :
    ∀ (k a : Nat), fetchAux oracle a k = none ↔
      ∀ j, a ≤ j → j < a + k → (oracle j).usable = false := by
  intro k
  induction k with
  | zero =>
    intro a
    constructor
    · intro _ j h1 h2; omega
    · intro _; rfl
  | succ n ih =>
    intro a
    by_cases hu : (oracle a).usable = false
    · rw [fetchAux_step oracle a n hu, ih (a + 1)]
      constructor
      · intro h j hj1 hj2
        rcases Nat.eq_or_lt_of_le hj1 with rfl | hlt
        · exact hu
        · exact h j hlt (by omega)
      · intro h j hj1 hj2
        exact h j (by omega) (by omega)
    · rcases hc : oracle a with ⟨b, e⟩ | _ | _
      · cases e with
        | false =>
          constructor
          · intro h
            rw [fetchAux, hc] at h
            exact absurd h (by simp)
          · intro h
            have := h a (le_refl a) (by omega)
            rw [hc] at this
            simp [AttemptOutcome.usable] at this
        | true => rw [hc] at hu; simp [AttemptOutcome.usable] at hu
      · rw [hc] at hu; simp [AttemptOutcome.usable] at hu
      · rw [hc] at hu; simp [AttemptOutcome.usable] at hu

theorem fetchAux_hit (oracle : Nat → AttemptOutcome α) (a n : Nat) (b : α)
    (hc : oracle a = .ok b false) : fetchAux oracle a (n + 1) = some b := by
  simp [fetchAux, hc]

end Old

/-- C7 counterexample: with an attempt sequence that fails once and then
succeeds, `script_manus.py`'s `get_page_content` returns `None` although the
second of the three permitted attempts is usable (and the old crawler's
3-attempt fetcher indeed recovers the body). -/
theorem c7_counterexample :
    get_page_content c7oracle = none ∧ (c7oracle 1).usable = true ∧
      Old.get_page_content c7oracle = some 42 :=
  ⟨rfl, rfl, rfl⟩

/-- C7 amended: the 3-attempt contract holds of `old_files/crawler.py`'s
`get_page_content` (the cited `script_manus.py` version makes a single
attempt): it retries on network errors, timeouts and empty bodies, returns
the body of the first usable attempt among the first three, and returns the
failure value `None` exactly when all 3 attempts are unusable; it never
raises (it is a total function into `Option`). -/
theorem c7_amended_old_fetch_retries (oracle : Nat → AttemptOutcome α) :
    (Old.get_page_content oracle = none ↔ ∀ i, i < 3 → (oracle i).usable = false) ∧
    (∀ b, oracle 0 = .ok b false → Old.get_page_content oracle = some b) ∧
    (∀ b, (oracle 0).usable = false → oracle 1 = .ok b false →
      Old.get_page_content oracle = some b) ∧
    (∀ b, (oracle 0).usable = false → (oracle 1).usable = false →
      oracle 2 = .ok b false → Old.get_page_content oracle = some b) := by
  refine ⟨?_, ?_, ?_, ?_⟩
  · rw [Old.get_page_content, Old.fetchAux_none_iff]
    constructor
    · intro h i hi; exact h i (by omega) (by omega)
    · intro h j h1 h2; exact h j (by omega)
  · intro b hc
    rw [Old.get_page_content, Old.fetchAux_hit oracle 0 2 b hc]
  · intro b h0 hc
    rw [Old.get_page_content, Old.fetchAux_step oracle 0 2 h0,
      Old.fetchAux_hit oracle 1 1 b hc]
  · intro b h0 h1 hc
    rw [Old.get_page_content, Old.fetchAux_step oracle 0 2 h0,
      Old.fetchAux_step oracle 1 1 h1, Old.fetchAux_hit oracle 2 0 b hc]

/-- C7 amended, witness: a sequence failing on its first attempt and
succeeding on its second yields the second attempt's body. -/
theorem c7_amended_witness :
    Old.get_page_content (fun i => if i = 0 then AttemptOutcome.requestErr
      else AttemptOutcome.ok (37 : Nat) false) = some 37 :=
  (c7_amended_old_fetch_retries _).2.2.1 37 rfl rfl

/-! ## C8 — forcing the section-type parameter in pagination -/

/-- C8 counterexample: with a `Next` anchor lacking a usable `href` and a
current URL without a `start` parameter, `handle_pagination`
(`script_manus.py` lines 639–642) returns `current_url` with `start=12`
appended and does **not** force the section-type parameter: the result has no
`type` parameter at all. -/
theorem c8_counterexample :
    handle_pagination c8soup c8cur "2" = some (addQ c8cur "start" "12") ∧
      getQ (addQ c8cur "start" "12") "type" = none := by
  refine ⟨by decide, by decide⟩

/-- C8 amended: every next-page URL resolved through an anchor with an href
(next-text, next-class or sibling strategy) or through the arithmetic
`start` continuation carries `type = solution_type`; the only exception is
the last-resort branch (an anchor was found but has no usable href, and the
current URL has no `start` parameter), which appends `start=12` to the
current URL without forcing the type parameter.  The old crawler's
`handle_pagination` forces the type parameter on every resolved URL. -/
theorem c8_amended_type_forced :
    (∀ soup cur sol u', handle_pagination soup cur sol = some u' →
      getQ u' "type" = some sol ∨
        (smNextLink soup = some none ∧ getQ cur "start" = none ∧
          u' = addQ cur "start" "12")) ∧
    (∀ nl cur sol u', Old.handle_pagination nl cur sol = some u' →
      getQ u' "type" = some sol) := by
  constructor
  · intro soup cur sol u' h
    unfold handle_pagination at h
    rcases hn : smNextLink soup with _ | ⟨_ | href⟩
    · simp only [hn] at h
      cases hs : getQ cur "start" with
      | some s =>
        simp only [hs] at h
        cases ht : strToNat s with
        | some start =>
          simp only [ht] at h
          split at h
          · exact absurd h (by simp)
          · split at h
            · exact absurd h (by simp)
            · left
              rw [Option.some.injEq] at h
              rw [← h]
              exact getQ_setQ_self _ "type" sol
        | none => simp only [ht] at h; exact absurd h (by simp)
      | none =>
        simp only [hs] at h
        split at h
        · left
          rw [Option.some.injEq] at h
          rw [← h]
          exact getQ_setQ_self _ "type" sol
        · left
          rw [Option.some.injEq] at h
          rw [← h]
          exact getQ_mkCatalogStart_type sol
    · simp only [hn] at h
      by_cases hq : getQ cur "start" = none
      · rw [if_pos hq, Option.some.injEq] at h
        exact Or.inr ⟨rfl, hq, h.symm⟩
      · rw [if_neg hq] at h
        exact absurd h (by simp)
    · simp only [hn] at h
      split at h
      · exact absurd h (by simp)
      · left
        rw [Option.some.injEq] at h
        rw [← h]
        exact getQ_setQ_self _ "type" sol
  · intro nl cur sol u' h
    rcases nl with _ | ⟨_ | href, dis, inv⟩
    · simp [Old.handle_pagination] at h
    · simp [Old.handle_pagination] at h
    · simp only [Old.handle_pagination] at h
      split at h
      · exact absurd h (by simp)
      · split at h
        · exact absurd h (by simp)
        · split at h
          · exact absurd h (by simp)
          · rw [Option.some.injEq] at h
            rw [← h]
            exact getQ_setQ_self _ "type" sol

/-- C8 amended, witness: the arithmetic continuation from `start=0` carries
the forced type parameter (the second disjunct is concrete as well). -/
theorem c8_amended_witness :
    getQ ({ base := catalogBase, query := [("start", "12"), ("type", "1")] } : Url)
      "type" = some "1" ∨
      (smNextLink blankSoup = some none ∧ getQ c8wcur "start" = none ∧
        ({ base := catalogBase, query := [("start", "12"), ("type", "1")] } : Url) =
          addQ c8wcur "start" "12") :=
  c8_amended_type_forced.1 blankSoup c8wcur "1" _ (by decide)

/-! ## Structure lemmas about the listing extractor and the detail updates -/

theorem mem_smLinkFold :
    ∀ (links : List Anchor) (s : List Assessment × List String × List String)
      (a : Assessment), a ∈ (List.foldl smLinkStep s links).1 →
        a ∈ s.1 ∨ ∃ l url, a = smMkStub l url := by
  intro links
  induction links with
  | nil => intro s a h; exact Or.inl h
  | cons l rest ih =>
    intro s a h
    rcases ih (smLinkStep s l) a h with h' | h'
    · unfold smLinkStep at h'
      cases hu : linkUrl l with
      | none => rw [hu] at h'; exact Or.inl h'
      | some url =>
        simp only [hu] at h'
        split at h'
        · exact Or.inl h'
        · split at h'
          · rcases List.mem_append.1 h' with h'' | h''
            · exact Or.inl h''
            · exact Or.inr ⟨l, url, (List.mem_singleton.1 h'')⟩
          · exact Or.inl h'
    · exact Or.inr h'

theorem flagFromCircles_yes_or_no (cs : List String) (i : Nat) :
    flagFromCircles cs i = "Yes" ∨ flagFromCircles cs i = "No" := by
  unfold flagFromCircles
  cases cs.get? i with
  | none => exact Or.inr (by simp)
  | some c =>
    by_cases hc : containsSub c "yes" = true
    · exact Or.inl (by simp [hc])
    · exact Or.inr (by simp [hc])

theorem smDescUpdate_keeps (soup : DetailSoup) (a : Assessment) :
    (smDescUpdate soup a).remote_testing_support = a.remote_testing_support ∧
    (smDescUpdate soup a).adaptive_irt_support = a.adaptive_irt_support ∧
    (smDescUpdate soup a).test_types = a.test_types := by
  unfold smDescUpdate
  cases soup.metaDescription <;> exact ⟨rfl, rfl, rfl⟩

theorem smDurUpdate_keeps (soup : DetailSoup) (a : Assessment) :
    (smDurUpdate soup a).remote_testing_support = a.remote_testing_support ∧
    (smDurUpdate soup a).adaptive_irt_support = a.adaptive_irt_support ∧
    (smDurUpdate soup a).test_types = a.test_types := by
  simp only [smDurUpdate]
  repeat' split
  all_goals exact ⟨rfl, rfl, rfl⟩

theorem smRemoteUpdate_keeps (soup : DetailSoup) (a : Assessment) :
    (smRemoteUpdate soup a).adaptive_irt_support = a.adaptive_irt_support ∧
    (smRemoteUpdate soup a).test_types = a.test_types := by
  simp only [smRemoteUpdate]
  repeat' split
  all_goals exact ⟨rfl, rfl⟩

theorem smAdaptiveUpdate_keeps (soup : DetailSoup) (a : Assessment) :
    (smAdaptiveUpdate soup a).remote_testing_support = a.remote_testing_support ∧
    (smAdaptiveUpdate soup a).test_types = a.test_types := by
  simp only [smAdaptiveUpdate]
  repeat' split
  all_goals exact ⟨rfl, rfl⟩

theorem smTypesUpdate_keeps (soup : DetailSoup) (a : Assessment) :
    (smTypesUpdate soup a).remote_testing_support = a.remote_testing_support ∧
    (smTypesUpdate soup a).adaptive_irt_support = a.adaptive_irt_support := by
  simp only [smTypesUpdate]
  repeat' split
  all_goals exact ⟨rfl, rfl⟩

theorem smTypesUpdate_of_nonempty (soup : DetailSoup) (a : Assessment)
    (h : a.test_types ≠ []) : smTypesUpdate soup a = a := by
  simp only [smTypesUpdate]
  rw [if_neg h]

theorem smRemoteUpdate_spec (soup : DetailSoup) (a : Assessment) :
    ((smRemoteUpdate soup a).remote_testing_support = a.remote_testing_support ∨
      ((smRemoteUpdate soup a).remote_testing_support = "Yes" ∧ smRemoteEvidence soup)) ∧
    (a.remote_testing_support = "Yes" →
      (smRemoteUpdate soup a).remote_testing_support = "Yes") := by
  unfold smRemoteUpdate
  by_cases hr : a.remote_testing_support = "No"
  · rw [if_pos hr]
    split
    · rename_i t heq
      by_cases hc : containsCI t "yes" = true
      · rw [if_pos hc]
        exact ⟨Or.inr ⟨rfl, t, heq, hc⟩,
          fun hy => absurd (hr.symm.trans hy) (by decide)⟩
      · rw [if_neg hc]
        exact ⟨Or.inl rfl, fun hy => absurd (hr.symm.trans hy) (by decide)⟩
    · exact ⟨Or.inl rfl, fun hy => absurd (hr.symm.trans hy) (by decide)⟩
  · rw [if_neg hr]
    exact ⟨Or.inl rfl, fun hy => hy⟩

theorem smAdaptiveUpdate_spec (soup : DetailSoup) (a : Assessment) :
    ((smAdaptiveUpdate soup a).adaptive_irt_support = a.adaptive_irt_support ∨
      ((smAdaptiveUpdate soup a).adaptive_irt_support = "Yes" ∧ smAdaptiveEvidence soup)) ∧
    (a.adaptive_irt_support = "Yes" →
      (smAdaptiveUpdate soup a).adaptive_irt_support = "Yes") := by
  unfold smAdaptiveUpdate
  by_cases hr : a.adaptive_irt_support = "No"
  · rw [if_pos hr]
    split
    · rename_i t heq
      by_cases hc : containsCI t "yes" = true
      · rw [if_pos hc]
        exact ⟨Or.inr ⟨rfl, t, heq, hc⟩,
          fun hy => absurd (hr.symm.trans hy) (by decide)⟩
      · rw [if_neg hc]
        exact ⟨Or.inl rfl, fun hy => absurd (hr.symm.trans hy) (by decide)⟩
    · exact ⟨Or.inl rfl, fun hy => absurd (hr.symm.trans hy) (by decide)⟩
  · rw [if_neg hr]
    exact ⟨Or.inl rfl, fun hy => hy⟩

namespace Old

theorem remoteOf_yes (soup : OldDetailSoup) : remoteOf soup "Yes" = "Yes" := by
  unfold remoteOf
  simp

theorem remoteOf_spec (soup : OldDetailSoup) (r0 : String) :
    remoteOf soup r0 = r0 ∨ (remoteOf soup r0 = "Yes" ∧ oldRemoteEvidence soup) := by
  unfold remoteOf
  by_cases hy : r0 = "Yes"
  · rw [if_neg (by simp [hy])]
    exact Or.inl rfl
  · rw [if_pos hy]
    by_cases hk : remoteKeywords.any (fun kw => containsCI soup.pageText kw) = true
    · rw [if_pos hk]
      refine Or.inr ⟨rfl, Or.inl ?_⟩
      rcases List.any_eq_true.1 hk with ⟨kw, hkw, hc⟩
      exact ⟨kw, hkw, hc⟩
    · rw [if_neg hk]
      by_cases hn : r0 = "No"
      · rw [if_pos hn]
        split
        · rename_i t heq
          by_cases hc : (containsWordCI t "yes" || containsCI t "available") = true
          · rw [if_pos hc]
            exact Or.inr ⟨rfl, Or.inr ⟨t, heq, hc⟩⟩
          · rw [if_neg hc]
            exact Or.inl rfl
        · exact Or.inl rfl
      · rw [if_neg hn]
        exact Or.inl rfl

theorem adaptiveOf_yes (soup : OldDetailSoup) : adaptiveOf soup "Yes" = "Yes" := by
  unfold adaptiveOf
  simp

theorem adaptiveOf_spec (soup : OldDetailSoup) (r0 : String) :
    adaptiveOf soup r0 = r0 ∨ (adaptiveOf soup r0 = "Yes" ∧ oldAdaptiveEvidence soup) := by
  unfold adaptiveOf
  by_cases hy : r0 = "Yes"
  · rw [if_neg (by simp [hy])]
    exact Or.inl rfl
  · rw [if_pos hy]
    by_cases hca : containsCI soup.pageText "computer adaptive" = true
    · rw [if_pos hca]
      exact Or.inr ⟨rfl, Or.inl hca⟩
    · rw [if_neg hca]
      by_cases hk : adaptiveKeywords.any (fun kw => containsCI soup.pageText kw) = true
      · rw [if_pos hk]
        refine Or.inr ⟨rfl, Or.inr (Or.inl ?_)⟩
        rcases List.any_eq_true.1 hk with ⟨kw, hkw, hc⟩
        exact ⟨kw, hkw, hc⟩
      · rw [if_neg hk]
        by_cases hn : r0 = "No"
        · rw [if_pos hn]
          split
          · rename_i t heq
            by_cases hc :
                (containsWordCI t "yes" || containsCI t "true" || containsCI t "enabled") = true
            · rw [if_pos hc]
              exact Or.inr ⟨rfl, Or.inr (Or.inr ⟨t, heq, hc⟩)⟩
            · rw [if_neg hc]
              exact Or.inl rfl
          · exact Or.inl rfl
        · rw [if_neg hn]
          exact Or.inl rfl

end Old

/-! ## Vocabulary and deduplication lemmas -/

theorem typeMapping_mem (c : Char) (t : String) (h : typeMapping c = some t) :
    t ∈ typeVocab := by
  unfold typeMapping at h
  repeat' split at h
  all_goals simp_all [typeVocab]

theorem smMapLetters_vocab (s : String) : ∀ t ∈ smMapLetters s, t ∈ typeVocab := by
  intro t ht
  unfold smMapLetters at ht
  rcases List.mem_filterMap.1 ht with ⟨c, _, hc⟩
  exact typeMapping_mem c t hc

theorem smMapLettersDedup_spec (s : String) :
    ∀ (acc : List String), acc.Nodup →
      (smMapLettersDedup acc s).Nodup ∧
        ∀ t ∈ smMapLettersDedup acc s, t ∈ acc ∨ t ∈ typeVocab := by
  unfold smMapLettersDedup
  generalize s.toList = cs
  induction cs with
  | nil => intro acc h; exact ⟨h, fun t ht => Or.inl ht⟩
  | cons c rest ih =>
    intro acc h
    simp only [List.foldl_cons]
    cases hm : typeMapping c with
    | none => simpa [hm] using ih acc h
    | some t =>
      simp only [hm]
      by_cases hin : t ∈ acc
      · simpa [hin] using ih acc h
      · rw [if_neg hin]
        have hnd : (acc ++ [t]).Nodup := by
          simp [List.nodup_append, h, hin]
        rcases ih (acc ++ [t]) hnd with ⟨h1, h2⟩
        refine ⟨h1, ?_⟩
        intro u hu
        rcases h2 u hu with hu' | hu'
        · rcases List.mem_append.1 hu' with hu'' | hu''
          · exact Or.inl hu''
          · exact Or.inr (by
              rw [List.mem_singleton.1 hu'']
              exact typeMapping_mem c t hm)
        · exact Or.inr hu'

theorem oldMapLettersSeen_spec (s : String) :
    (oldMapLettersSeen s).Nodup ∧ ∀ t ∈ oldMapLettersSeen s, t ∈ typeVocab := by
  unfold oldMapLettersSeen
  generalize s.toList = cs
  suffices h : ∀ (cs : List Char) (acc : List String), acc.Nodup →
      ((cs.foldl (fun st c =>
          match typeMapping c with
          | some t => if t ∈ st.2 then st else (st.1 ++ [t], st.2 ++ [t])
          | none => st) (acc, acc)).1.Nodup ∧
        ∀ t ∈ (cs.foldl (fun st c =>
          match typeMapping c with
          | some t => if t ∈ st.2 then st else (st.1 ++ [t], st.2 ++ [t])
          | none => st) (acc, acc)).1, t ∈ acc ∨ t ∈ typeVocab) by
    rcases h cs [] List.nodup_nil with ⟨h1, h2⟩
    refine ⟨h1, ?_⟩
    intro t ht
    rcases h2 t ht with ht' | ht'
    · exact absurd ht' (List.not_mem_nil t)
    · exact ht'
  intro cs
  induction cs with
  | nil => intro acc h; exact ⟨h, fun t ht => Or.inl ht⟩
  | cons c rest ih =>
    intro acc h
    simp only [List.foldl_cons]
    cases hm : typeMapping c with
    | none => simpa [hm] using ih acc h
    | some t =>
      simp only [hm]
      by_cases hin : t ∈ acc
      · simpa [hin] using ih acc h
      · rw [if_neg hin]
        have hnd : (acc ++ [t]).Nodup := by
          simp [List.nodup_append, h, hin]
        rcases ih (acc ++ [t]) hnd with ⟨h1, h2⟩
        refine ⟨h1, ?_⟩
        intro u hu
        rcases h2 u hu with hu' | hu'
        · rcases List.mem_append.1 hu' with hu'' | hu''
          · exact Or.inl hu''
          · exact Or.inr (by
              rw [List.mem_singleton.1 hu'']
              exact typeMapping_mem c t hm)
        · exact Or.inr hu'

theorem keywordMapping_vocab : ∀ kv ∈ Old.keywordMapping, kv.2 ∈ typeVocab := by
  decide

theorem keywordTypes_spec (s : String) :
    (Old.keywordTypes s).Nodup ∧ ∀ t ∈ Old.keywordTypes s, t ∈ typeVocab := by
  unfold Old.keywordTypes
  suffices h : ∀ (kvs : List (String × String)), (∀ kv ∈ kvs, kv.2 ∈ typeVocab) →
      ∀ (acc : List String), acc.Nodup →
      ((kvs.foldl (fun st kv =>
          if containsCI s kv.1 then
            if kv.2 ∈ st.2 then st else (st.1 ++ [kv.2], st.2 ++ [kv.2])
          else st) (acc, acc)).1.Nodup ∧
        ∀ t ∈ (kvs.foldl (fun st kv =>
          if containsCI s kv.1 then
            if kv.2 ∈ st.2 then st else (st.1 ++ [kv.2], st.2 ++ [kv.2])
          else st) (acc, acc)).1, t ∈ acc ∨ t ∈ typeVocab) by
    rcases h Old.keywordMapping keywordMapping_vocab [] List.nodup_nil with ⟨h1, h2⟩
    refine ⟨h1, ?_⟩
    intro t ht
    rcases h2 t ht with ht' | ht'
    · exact absurd ht' (List.not_mem_nil t)
    · exact ht'
  intro kvs
  induction kvs with
  | nil => intro _ acc h; exact ⟨h, fun t ht => Or.inl ht⟩
  | cons kv rest ih =>
    intro hv acc h
    have hv' : ∀ p ∈ rest, p.2 ∈ typeVocab := fun p hp => hv p (List.mem_cons_of_mem kv hp)
    simp only [List.foldl_cons]
    by_cases hc : containsCI s kv.1 = true
    · simp only [hc, if_true]
      by_cases hin : kv.2 ∈ acc
      · simpa [hin] using ih hv' acc h
      · rw [if_neg hin]
        have hnd : (acc ++ [kv.2]).Nodup := by
          simp [List.nodup_append, h, hin]
        rcases ih hv' (acc ++ [kv.2]) hnd with ⟨h1, h2⟩
        refine ⟨h1, ?_⟩
        intro u hu
        rcases h2 u hu with hu' | hu'
        · rcases List.mem_append.1 hu' with hu'' | hu''
          · exact Or.inl hu''
          · exact Or.inr (by
              rw [List.mem_singleton.1 hu'']
              exact hv kv (List.mem_cons_self kv rest))
        · exact Or.inr hu'
    · simp only [hc, if_false]
      exact ih hv' acc h

theorem mem_oldLinkFold :
    ∀ (links : List Old.OldAnchor) (s : List Assessment × List String × List String)
      (a : Assessment), a ∈ (List.foldl Old.oldLinkStep s links).1 →
        a ∈ s.1 ∨ (∃ l url, a = Old.oldMkStub l url) ∨ ∃ l url, a = Old.unknownStub l url := by
  intro links
  induction links with
  | nil => intro s a h; exact Or.inl h
  | cons l rest ih =>
    intro s a h
    rcases ih (Old.oldLinkStep s l) a h with h' | h'
    · unfold Old.oldLinkStep at h'
      cases hu : Old.oldLinkUrl l with
      | none => rw [hu] at h'; exact Or.inl h'
      | some url =>
        simp only [hu] at h'
        split at h'
        · exact Or.inl h'
        · split at h'
          · rcases List.mem_append.1 h' with h'' | h''
            · exact Or.inl h''
            · exact Or.inr (Or.inl ⟨l, url, List.mem_singleton.1 h''⟩)
          · rcases List.mem_append.1 h' with h'' | h''
            · exact Or.inl h''
            · exact Or.inr (Or.inr ⟨l, url, List.mem_singleton.1 h''⟩)
    · exact Or.inr h'

/-! ## C4 — duration pattern priority -/

/-- C4 counterexample: `script_manus.py`'s duration extraction has no range
pattern at all; on a page whose text contains both `15-20 minutes` and
`30 minutes` its `extract_assessment_details` sets `duration` to
`"20 minutes"` (the first single-value match inside the range), not to the
range `"15-20 minutes"`. -/
theorem c4_counterexample :
    (extract_assessment_details (fun _ => some c4soup) c4stub).duration =
      some "20 minutes" ∧
      (some "20 minutes" : Option String) ≠ some "15-20 minutes" := by
  exact ⟨by decide, by decide⟩

/-- C4 amended: the strict pattern priority — range before "approximately X
minutes" before "X minutes" before labeled free text, first match wins —
holds of `old_files/crawler.py`'s `extract_assessment_details`
(`duration_patterns`, lines 345–390): whenever the range pattern matches the
page text (and no `Assessment length` section hijacks the search), the
resulting `duration` is the range, never a weaker pattern's value.
`script_manus.py`'s extractor has no range pattern and returns the first
single-value match instead. -/
theorem c4_amended_old_range_priority (fetch : String → Option Old.OldDetailSoup)
    (a : Assessment) (soup : Old.OldDetailSoup) (x y : String)
    (hf : fetch a.url = some soup)
    (hsec : soup.lengthSectionText = none)
    (hr : Old.searchRangeMinutes soup.pageText = some (x, y)) :
    (Old.extract_assessment_details fetch a).duration =
      some (x ++ "-" ++ y ++ " minutes") := by
  simp only [Old.extract_assessment_details, hf]
  simp [Old.durOf, hsec, Old.durMatch, hr, Old.fmtPage]

/-- C4 amended, witness: on the dual-phrase page the old extractor returns
the range. -/
theorem c4_amended_witness :
    (Old.extract_assessment_details (fun _ => some c4oldSoup) c4stub).duration =
      some ("15" ++ "-" ++ "20" ++ " minutes") :=
  c4_amended_old_range_priority _ c4stub c4oldSoup "15" "20" rfl rfl (by decide)

/-! ## C5 — all fields present with defaults -/

/-- C5 counterexample: `old_files/crawler.py` lines 452–454 delete the
`test_types` key when the list is still empty after enrichment, so the
record written to the dataset is missing the key (modelled as `none`). -/
theorem c5_counterexample :
    (Old.extract_assessment_details (fun _ => some c5soup) c5stub).test_types = none := by
  decide

/-- C5 amended: in `script_manus.py` the claim holds — every stub created by
`extract_assessment_links` carries all seven fields with the defined
defaults (`duration`/`description` empty, flags `Yes`/`No`), and
`extract_assessment_details` never removes a field: in particular a
non-empty `test_types` list is returned unchanged, and the field is always a
list.  In `old_files/crawler.py`, however, enrichment deletes the
`test_types` key when it remains empty. -/
theorem c5_amended_sm_fields_total :
    (∀ soup sec proc a, a ∈ (extract_assessment_links soup sec proc).1 →
      a.duration = none ∧ a.description = none ∧
        (a.remote_testing_support = "Yes" ∨ a.remote_testing_support = "No") ∧
        (a.adaptive_irt_support = "Yes" ∨ a.adaptive_irt_support = "No")) ∧
    (∀ fetch a, a.test_types ≠ [] →
      (extract_assessment_details fetch a).test_types = a.test_types) := by
  constructor
  · intro soup sec proc a h
    unfold extract_assessment_links at h
    cases hl : smLocate soup sec with
    | none => rw [hl] at h; simp at h
    | some links =>
      rw [hl] at h
      rcases mem_smLinkFold links ([], [], proc) a h with h' | ⟨l, url, rfl⟩
      · simp at h'
      · exact ⟨rfl, rfl, flagFromCircles_yes_or_no _ 0, flagFromCircles_yes_or_no _ 1⟩
  · intro fetch a h
    cases hf : fetch a.url with
    | none => simp only [extract_assessment_details, hf]
    | some soup =>
      simp only [extract_assessment_details, hf]
      have h1 := (smDescUpdate_keeps soup a).2.2
      have h2 := (smDurUpdate_keeps soup (smDescUpdate soup a)).2.2
      have h3 := (smRemoteUpdate_keeps soup (smDurUpdate soup (smDescUpdate soup a))).2
      have h4 := (smAdaptiveUpdate_keeps soup
        (smRemoteUpdate soup (smDurUpdate soup (smDescUpdate soup a)))).2
      have h5 : (smAdaptiveUpdate soup (smRemoteUpdate soup
          (smDurUpdate soup (smDescUpdate soup a)))).test_types = a.test_types := by
        rw [h4, h3, h2, h1]
      rw [smTypesUpdate_of_nonempty _ _ (by rw [h5]; exact h), h5]

/-- C5 amended, witness: the stub extracted from a concrete row has the
default `duration`/`description` and well-formed flags, and enriching a stub
with a non-empty `test_types` list leaves the list in place. -/
theorem c5_amended_witness :
    (((extract_assessment_links c5wsoup .prePackaged []).1.head?).map
        Assessment.duration = some none) ∧
    (extract_assessment_details (fun _ => none) c4stub).test_types = ["Knowledge"] := by
  constructor
  · have h : ∀ a ∈ (extract_assessment_links c5wsoup .prePackaged []).1,
        a.duration = none ∧ a.description = none ∧
          (a.remote_testing_support = "Yes" ∨ a.remote_testing_support = "No") ∧
          (a.adaptive_irt_support = "Yes" ∨ a.adaptive_irt_support = "No") :=
      fun a ha => c5_amended_sm_fields_total.1 c5wsoup .prePackaged [] a ha
    have hm : (smMkStub c5anchor (urljoinB "/solutions/products/w/")) ∈
        (extract_assessment_links c5wsoup .prePackaged []).1 := by decide
    have := (h _ hm).1
    simp only [show (extract_assessment_links c5wsoup .prePackaged []).1 =
      [smMkStub c5anchor (urljoinB "/solutions/products/w/")] from by decide]
    simp [this]
  · exact c5_amended_sm_fields_total.2 (fun _ => none) c4stub (by decide)

/-! ## C9 — `test_types` as an ordered set -/

/-- C9 counterexample: `script_manus.py`'s listing extraction (lines 394–396)
appends one category per letter occurrence with no duplicate check: a row
whose test-type cell reads `AA` yields `test_types = [Ability, Ability]`. -/
theorem c9_counterexample :
    (extract_assessment_links c9soup .prePackaged []).1.map Assessment.test_types =
      [["Ability", "Ability"]] ∧
      ¬ (["Ability", "Ability"] : List String).Nodup := by
  exact ⟨by decide, by decide⟩

/-- C9 amended: every label produced by any extraction path is drawn from the
fixed vocabulary; the detail-enrichment path (both crawlers) and the old
crawler's listing extraction also forbid duplicates; but `script_manus.py`'s
listing extraction appends one label per matching letter occurrence and may
therefore repeat a label (order remains occurrence order). -/
theorem c9_amended_vocab_dedup :
    (∀ soup sec proc a, a ∈ (extract_assessment_links soup sec proc).1 →
      ∀ t ∈ a.test_types, t ∈ typeVocab) ∧
    (∀ fetch a, a.test_types = [] →
      ((extract_assessment_details fetch a).test_types.Nodup ∧
        ∀ t ∈ (extract_assessment_details fetch a).test_types, t ∈ typeVocab)) ∧
    (∀ links proc a, a ∈ (Old.extract_assessment_links links proc).1 →
      (a.test_types.Nodup ∧ ∀ t ∈ a.test_types, t ∈ typeVocab)) ∧
    (∀ fetch a l, a.test_types = [] →
      (Old.extract_assessment_details fetch a).test_types = some l →
      (l.Nodup ∧ ∀ t ∈ l, t ∈ typeVocab)) := by
  refine ⟨?_, ?_, ?_, ?_⟩
  · intro soup sec proc a h
    unfold extract_assessment_links at h
    cases hl : smLocate soup sec with
    | none => rw [hl] at h; simp at h
    | some links =>
      rw [hl] at h
      rcases mem_smLinkFold links ([], [], proc) a h with h' | ⟨l, url, rfl⟩
      · simp at h'
      · exact smMapLetters_vocab _
  · intro fetch a h
    cases hf : fetch a.url with
    | none =>
      simp only [extract_assessment_details, hf]
      constructor
      · rw [h]; exact List.nodup_nil
      · intro t ht; rw [h] at ht; exact absurd ht (List.not_mem_nil t)
    | some soup =>
      simp only [extract_assessment_details, hf]
      have h1 := (smDescUpdate_keeps soup a).2.2
      have h2 := (smDurUpdate_keeps soup (smDescUpdate soup a)).2.2
      have h3 := (smRemoteUpdate_keeps soup (smDurUpdate soup (smDescUpdate soup a))).2
      have h4 := (smAdaptiveUpdate_keeps soup
        (smRemoteUpdate soup (smDurUpdate soup (smDescUpdate soup a)))).2
      have h5 : (smAdaptiveUpdate soup (smRemoteUpdate soup
          (smDurUpdate soup (smDescUpdate soup a)))).test_types = [] := by
        rw [h4, h3, h2, h1, h]
      unfold smTypesUpdate
      rw [if_pos h5]
      cases ht : soup.testTypeSectionText with
      | none =>
        constructor
        · rw [h5]; exact List.nodup_nil
        · intro t ht'; rw [h5] at ht'; exact absurd ht' (List.not_mem_nil t)
      | some t =>
        have hspec := smMapLettersDedup_spec t _ ((h5) ▸ List.nodup_nil)
        refine ⟨hspec.1, ?_⟩
        intro u hu
        rcases hspec.2 u hu with hu' | hu'
        · rw [h5] at hu'; exact absurd hu' (List.not_mem_nil u)
        · exact hu'
  · intro links proc a h
    unfold Old.extract_assessment_links at h
    rcases mem_oldLinkFold links ([], proc, []) a h with h' | ⟨l, url, rfl⟩ | ⟨l, url, rfl⟩
    · simp at h'
    · exact ⟨(oldMapLettersSeen_spec _).1, (oldMapLettersSeen_spec _).2⟩
    · exact ⟨List.nodup_nil, fun t ht => absurd ht (List.not_mem_nil t)⟩
  · intro fetch a l h hl
    cases hf : fetch a.url with
    | none =>
      simp only [Old.extract_assessment_details, hf] at hl
      simp only [Option.some.injEq] at hl
      rw [← hl, h]
      exact ⟨List.nodup_nil, fun t ht => absurd ht (List.not_mem_nil t)⟩
    | some soup =>
      simp only [Old.extract_assessment_details, hf] at hl
      rw [Old.typesOf, if_pos h] at hl
      cases hm : soup.measuresAreaText with
      | none =>
        rw [hm, h] at hl
        simp at hl
      | some t =>
        rw [hm] at hl
        split at hl
        · exact absurd hl (by simp)
        · simp only [Option.some.injEq] at hl
          rw [← hl]
          exact keywordTypes_spec t

/-- C9 amended, witness: the detail path builds a duplicate-free,
vocabulary-respecting list from an empty stub. -/
theorem c9_amended_witness :
    ((extract_assessment_details (fun _ => some c9wsoup) c5stub).test_types).Nodup :=
  (c9_amended_vocab_dedup.2.1 (fun _ => some c9wsoup) c5stub (by decide)).1

/-! ## C3 — monotone escalation-only flags -/

/-- C3: in both crawlers' `extract_assessment_details` the
`remote_testing_support` and `adaptive_irt_support` fields never regress
from `Yes`: each invocation either leaves the field unchanged or sets it to
`Yes`, the latter only when the page shows the respective positive evidence;
in particular a `Yes` is always preserved and absence of evidence leaves the
value unchanged. -/
theorem c3_flags_escalation_only :
    (∀ fetch a,
      ((extract_assessment_details fetch a).remote_testing_support =
          a.remote_testing_support ∨
        ((extract_assessment_details fetch a).remote_testing_support = "Yes" ∧
          ∃ soup, fetch a.url = some soup ∧ smRemoteEvidence soup)) ∧
      (a.remote_testing_support = "Yes" →
        (extract_assessment_details fetch a).remote_testing_support = "Yes") ∧
      ((extract_assessment_details fetch a).adaptive_irt_support =
          a.adaptive_irt_support ∨
        ((extract_assessment_details fetch a).adaptive_irt_support = "Yes" ∧
          ∃ soup, fetch a.url = some soup ∧ smAdaptiveEvidence soup)) ∧
      (a.adaptive_irt_support = "Yes" →
        (extract_assessment_details fetch a).adaptive_irt_support = "Yes")) ∧
    (∀ fetch a,
      ((Old.extract_assessment_details fetch a).remote_testing_support =
          a.remote_testing_support ∨
        ((Old.extract_assessment_details fetch a).remote_testing_support = "Yes" ∧
          ∃ soup, fetch a.url = some soup ∧ Old.oldRemoteEvidence soup)) ∧
      (a.remote_testing_support = "Yes" →
        (Old.extract_assessment_details fetch a).remote_testing_support = "Yes") ∧
      ((Old.extract_assessment_details fetch a).adaptive_irt_support =
          a.adaptive_irt_support ∨
        ((Old.extract_assessment_details fetch a).adaptive_irt_support = "Yes" ∧
          ∃ soup, fetch a.url = some soup ∧ Old.oldAdaptiveEvidence soup)) ∧
      (a.adaptive_irt_support = "Yes" →
        (Old.extract_assessment_details fetch a).adaptive_irt_support = "Yes")) := by
  constructor
  · intro fetch a
    cases hf : fetch a.url with
    | none => simp [extract_assessment_details, hf]
    | some soup =>
      simp only [extract_assessment_details, hf]
      set a1 := smDescUpdate soup a with ha1
      set a2 := smDurUpdate soup a1 with ha2
      set a3 := smRemoteUpdate soup a2 with ha3
      set a4 := smAdaptiveUpdate soup a3 with ha4
      have e1r : a1.remote_testing_support = a.remote_testing_support :=
        (smDescUpdate_keeps soup a).1
      have e1a : a1.adaptive_irt_support = a.adaptive_irt_support :=
        (smDescUpdate_keeps soup a).2.1
      have e2r : a2.remote_testing_support = a1.remote_testing_support :=
        (smDurUpdate_keeps soup a1).1
      have e2a : a2.adaptive_irt_support = a1.adaptive_irt_support :=
        (smDurUpdate_keeps soup a1).2.1
      have e3a : a3.adaptive_irt_support = a2.adaptive_irt_support :=
        (smRemoteUpdate_keeps soup a2).1
      have e4r : a4.remote_testing_support = a3.remote_testing_support :=
        (smAdaptiveUpdate_keeps soup a3).1
      have e5r : (smTypesUpdate soup a4).remote_testing_support =
          a4.remote_testing_support := (smTypesUpdate_keeps soup a4).1
      have e5a : (smTypesUpdate soup a4).adaptive_irt_support =
          a4.adaptive_irt_support := (smTypesUpdate_keeps soup a4).2
      refine ⟨?_, ?_, ?_, ?_⟩
      · rcases (smRemoteUpdate_spec soup a2).1 with h | ⟨h, hev⟩
        · refine Or.inl ?_
          have h3 : a3.remote_testing_support = a2.remote_testing_support := h
          rw [e5r, e4r, h3, e2r, e1r]
        · refine Or.inr ⟨?_, soup, rfl, hev⟩
          have h3 : a3.remote_testing_support = "Yes" := h
          rw [e5r, e4r, h3]
      · intro hy
        have h2 : a2.remote_testing_support = "Yes" := by rw [e2r, e1r, hy]
        have h3 : a3.remote_testing_support = "Yes" :=
          (smRemoteUpdate_spec soup a2).2 h2
        rw [e5r, e4r, h3]
      · rcases (smAdaptiveUpdate_spec soup a3).1 with h | ⟨h, hev⟩
        · refine Or.inl ?_
          have h4 : a4.adaptive_irt_support = a3.adaptive_irt_support := h
          rw [e5a, h4, e3a, e2a, e1a]
        · refine Or.inr ⟨?_, soup, rfl, hev⟩
          have h4 : a4.adaptive_irt_support = "Yes" := h
          rw [e5a, h4]
      · intro hy
        have h3 : a3.adaptive_irt_support = "Yes" := by rw [e3a, e2a, e1a, hy]
        have h4 : a4.adaptive_irt_support = "Yes" :=
          (smAdaptiveUpdate_spec soup a3).2 h3
        rw [e5a, h4]
  · intro fetch a
    cases hf : fetch a.url with
    | none => simp [Old.extract_assessment_details, hf]
    | some soup =>
      simp only [Old.extract_assessment_details, hf]
      refine ⟨?_, ?_, ?_, ?_⟩
      · rcases Old.remoteOf_spec soup a.remote_testing_support with h | ⟨h, hev⟩
        · exact Or.inl h
        · exact Or.inr ⟨h, soup, rfl, hev⟩
      · intro hy; rw [hy]; exact Old.remoteOf_yes soup
      · rcases Old.adaptiveOf_spec soup a.adaptive_irt_support with h | ⟨h, hev⟩
        · exact Or.inl h
        · exact Or.inr ⟨h, soup, rfl, hev⟩
      · intro hy; rw [hy]; exact Old.adaptiveOf_yes soup

/-- C3 witness: a stub already marked `Yes` keeps its `Yes` through
enrichment, and with no evidence on the page the `No` flag stays `No`. -/
theorem c3_witness :
    (extract_assessment_details (fun _ => some c3soup) c3stub).remote_testing_support =
      "Yes" :=
  (c3_flags_escalation_only.1 (fun _ => some c3soup) c3stub).2.1 rfl

/-! ## C2 — what the crawl state records after an abandoned section -/

/-- C2 counterexample: with every listing fetch failing, the section loop of
`script_manus.py`'s `crawl_section` gives up after 3 consecutive failures
(the empty-page bound) — and the persisted `last_page` entry is `None`, not
the failing URL: the epilogue at lines 1065–1074 marks the section complete
on every exit path.  The three fetched URLs are the failing one and its two
`start`-incremented successors. -/
theorem c2_counterexample :
    (runCrawl c2env 10 c2st).1.map CrawlSt.statePage = some none ∧
    (runCrawl c2env 10 c2st).1.map CrawlSt.emptyPageCount = some 3 ∧
    (runCrawl c2env 10 c2st).2 =
      [c2url, setQ c2url "start" "24", setQ (setQ c2url "start" "24") "start" "36"] := by
  exact ⟨by decide, by decide, by decide⟩

/-- C2 amended: in `script_manus.py`, `crawl_section` records every exit —
abandonment after the fetch-failure/empty-page bound included — identically
to a clean completion: whenever the loop finishes, the section's
`last_page` is `None` and its `page_num` is reset to 1, so the next run
restarts the section from its beginning instead of resuming at the failing
URL.  (Only `old_files/crawler.py` retained the failing URL.) -/
theorem c2_amended_completion_uniform (env : CrawlEnv) (fuel : Nat) (st stF : CrawlSt)
    (evs : List Url) (h : runCrawl env fuel st = (some stF, evs)) :
    stF.statePage = none ∧ stF.statePageNum = 1 := by
  induction fuel generalizing st evs with
  | zero => simp [runCrawl] at h
  | succ n ih =>
    rw [runCrawl] at h
    cases hs : crawlStep env st with
    | halt e st' =>
      rw [hs] at h
      simp only [Prod.mk.injEq, Option.some.injEq] at h
      rw [← h.1]
      exact ⟨rfl, rfl⟩
    | cont e st' =>
      rw [hs] at h
      simp only [Prod.mk.injEq] at h
      exact ih st' (runCrawl env n st').2 (by rw [← h.1])

/-- C2 amended, witness: a run that exits immediately still reports the
section as complete. -/
theorem c2_amended_witness :
    (markComplete c2st).statePage = none ∧ (markComplete c2st).statePageNum = 1 :=
  c2_amended_completion_uniform c2wenv 1 c2st (markComplete c2st) [] (by decide)

/-! ## C6 — the per-URL visit bound of the section loop -/

theorem lookupCount_nil (v : Url) : lookupCount [] v = 0 := rfl

theorem lookupCount_cons (p : Url × Nat) (rest : List (Url × Nat)) (v : Url) :
    lookupCount (p :: rest) v = if p.1 = v then p.2 else lookupCount rest v := by
  unfold lookupCount
  by_cases h : p.1 = v
  · rw [List.find?_cons_of_pos _ (by simp [h]), if_pos h]
  · rw [List.find?_cons_of_neg _ (by simp [h]), if_neg h]

theorem lookupCount_bump_self (l : List (Url × Nat)) (u : Url) :
    lookupCount (bumpVisit l u) u = lookupCount l u + 1 := by
  induction l with
  | nil => simp [bumpVisit, lookupCount_cons, lookupCount_nil]
  | cons p rest ih =>
    by_cases h : p.1 = u
    · unfold bumpVisit
      rw [if_pos h]
      rw [lookupCount_cons, lookupCount_cons, if_pos h, if_pos h]
    · unfold bumpVisit
      rw [if_neg h]
      rw [lookupCount_cons, lookupCount_cons, if_neg h, if_neg h]
      exact ih

theorem lookupCount_bump_other (l : List (Url × Nat)) (u v : Url) (h : v ≠ u) :
    lookupCount (bumpVisit l u) v = lookupCount l v := by
  induction l with
  | nil =>
    simp only [bumpVisit, lookupCount_cons, lookupCount_nil]
    rw [if_neg (fun hh => h hh.symm)]
  | cons p rest ih =>
    by_cases hp : p.1 = u
    · unfold bumpVisit
      rw [if_pos hp]
      rw [lookupCount_cons, lookupCount_cons]
      by_cases hv : p.1 = v
      · exact absurd (hv.symm.trans hp) h
      · rw [if_neg hv, if_neg hv]
    · unfold bumpVisit
      rw [if_neg hp]
      rw [lookupCount_cons, lookupCount_cons]
      by_cases hv : p.1 = v
      · rw [if_pos hv, if_pos hv]
      · rw [if_neg hv, if_neg hv]
        exact ih

theorem lookupCount_le_bump (l : List (Url × Nat)) (u v : Url) :
    lookupCount l v ≤ lookupCount (bumpVisit l u) v := by
  by_cases h : v = u
  · rw [h, lookupCount_bump_self]; omega
  · rw [lookupCount_bump_other l u v h]

theorem followNext_inv (ev : Option Url) (st : CrawlSt) (nu : Url) :
    (followNext ev st nu).stOf.visitedUrls = st.visitedUrls ∧
      (followNext ev st nu).evOf = ev := by
  unfold followNext
  split <;> exact ⟨rfl, rfl⟩

theorem crawlTail_inv (env : CrawlEnv) (soup : ListingSoup) (current : Url)
    (pa : List Assessment) (af : List String) (ev : Option Url) (st : CrawlSt) :
    (crawlTail env soup current pa af ev st).stOf.visitedUrls = st.visitedUrls ∧
      (crawlTail env soup current pa af ev st).evOf = ev := by
  simp only [crawlTail]
  repeat' split
  all_goals
    first
      | exact ⟨rfl, rfl⟩
      | exact ⟨(followNext_inv _ _ _).1, (followNext_inv _ _ _).2⟩

theorem crawlFetch_inv (env : CrawlEnv) (current : Url) (st : CrawlSt) :
    (crawlFetch env current st).stOf.visitedUrls = st.visitedUrls ∧
      (crawlFetch env current st).evOf = some current := by
  simp only [crawlFetch]
  repeat' split
  all_goals
    first
      | exact ⟨rfl, rfl⟩
      | exact ⟨(crawlTail_inv _ _ _ _ _ _ _).1, (crawlTail_inv _ _ _ _ _ _ _).2⟩

theorem crawlStep_spec (env : CrawlEnv) (st : CrawlSt) :
    (∀ v, lookupCount st.visitedUrls v ≤
        lookupCount (crawlStep env st).stOf.visitedUrls v) ∧
    (∀ u, (crawlStep env st).evOf = some u →
      lookupCount (crawlStep env st).stOf.visitedUrls u =
          lookupCount st.visitedUrls u + 1 ∧
        lookupCount st.visitedUrls u + 1 ≤ maxRevisits) := by
  cases hcur : st.currentUrl with
  | none =>
    simp only [crawlStep, hcur]
    exact ⟨fun v => le_refl _, fun u h => by simp [StepRes.evOf] at h⟩
  | some current =>
    simp only [crawlStep, hcur]
    split
    · exact ⟨fun v => le_refl _, fun u h => by simp [StepRes.evOf] at h⟩
    · split
      · split
        · exact ⟨fun v => le_refl _, fun u h => by simp [StepRes.evOf] at h⟩
        · exact ⟨fun v => le_refl _, fun u h => by simp [StepRes.evOf] at h⟩
      · split
        · exact ⟨fun v => by
            simp only [StepRes.stOf, markComplete]
            exact lookupCount_le_bump _ _ _,
            fun u h => by simp [StepRes.evOf] at h⟩
        · rename_i hguard
          constructor
          · intro v
            rw [(crawlFetch_inv env current _).1]
            exact lookupCount_le_bump _ _ _
          · intro u h
            rw [(crawlFetch_inv env current _).2, Option.some.injEq] at h
            rw [← h]
            constructor
            · rw [(crawlFetch_inv env current _).1, lookupCount_bump_self]
            · rw [not_lt] at hguard
              rw [lookupCount_bump_self] at hguard
              exact hguard

theorem runCrawl_fetch_bound (env : CrawlEnv) :
    ∀ (fuel : Nat) (st : CrawlSt) (u : Url),
      (runCrawl env fuel st).2.count u +
          min (lookupCount st.visitedUrls u) maxRevisits ≤ maxRevisits := by
  intro fuel
  induction fuel with
  | zero => intro st u; simp [runCrawl]
  | succ n ih =>
    intro st u
    rw [runCrawl]
    cases hs : crawlStep env st with
    | halt e st' =>
      cases e with
      | none => simp
      | some v =>
        by_cases hv : v = u
        · subst hv
          have hb := (crawlStep_spec env st).2 v (by rw [hs]; rfl)
          rw [hs] at hb
          simp only [Option.toList, List.count_cons, List.count_nil]
          have h2 := hb.2
          have hmin : min (lookupCount st.visitedUrls v) maxRevisits =
              lookupCount st.visitedUrls v := by
            apply min_eq_left
            omega
          rw [hmin]
          simp
          omega
        · simp only [Option.toList]
          have hc : List.count u [v] = 0 := by
            simp [List.count_cons, hv]
          rw [hc]
          simp [min_le_right]
    | cont e st' =>
      have hrest := ih st' u
      have hmono := (crawlStep_spec env st).1 u
      rw [hs] at hmono
      simp only [StepRes.stOf] at hmono
      cases e with
      | none =>
        simp only [Option.toList, List.nil_append]
        have : min (lookupCount st.visitedUrls u) maxRevisits ≤
            min (lookupCount st'.visitedUrls u) maxRevisits := by
          exact min_le_min hmono (le_refl _)
        omega
      | some v =>
        by_cases hv : v = u
        · subst hv
          have hb := (crawlStep_spec env st).2 v (by rw [hs]; rfl)
          rw [hs] at hb
          simp only [StepRes.stOf] at hb
          simp only [Option.toList, List.count_append, List.count_cons, List.count_nil]
          simp
          have h1 := hb.1
          have h2 := hb.2
          rw [h1] at hrest
          have hm1 : min (lookupCount st.visitedUrls v + 1) maxRevisits =
              lookupCount st.visitedUrls v + 1 := min_eq_left h2
          have hm2 : min (lookupCount st.visitedUrls v) maxRevisits =
              lookupCount st.visitedUrls v := min_eq_left (by omega)
          rw [hm1] at hrest
          rw [hm2]
          omega
        · simp only [Option.toList, List.count_append]
          have hc : List.count u [v] = 0 := by
            simp [List.count_cons, hv]
          rw [hc]
          have : min (lookupCount st.visitedUrls u) maxRevisits ≤
              min (lookupCount st'.visitedUrls u) maxRevisits :=
            min_le_min hmono (le_refl _)
          omega

/-- C6: the section loop of `script_manus.py`'s `crawl_section` maintains a
per-section visit counter keyed by URL, and (a) in any run of the loop —
any environment, any pagination behaviour, any fuel — a given listing URL
is fetched at most `max_revisits + 1 = 3` times (in fact at most 2: a fetch
is only performed while the URL's incremented counter is still ≤ 2), so a
resolver that keeps returning the same URL cannot make the loop fetch it
forever; and (b) as soon as a URL's visit count exceeds the bound of 2, the
next arrival at that URL makes the orchestrator declare the section
complete and leave the loop. -/
theorem c6_visit_bound :
    (∀ env fuel st u, st.visitedUrls = [] →
      (runCrawl env fuel st).2.count u ≤ maxRevisits + 1) ∧
    (∀ env st current, env.maxPages = none → st.currentUrl = some current →
      current ∉ st.processedPages →
      maxRevisits ≤ lookupCount st.visitedUrls current →
      crawlStep env st =
        .halt none (markComplete
          { st with visitedUrls := bumpVisit st.visitedUrls current })) := by
  constructor
  · intro env fuel st u h
    have hb := runCrawl_fetch_bound env fuel st u
    rw [h] at hb
    simp only [lookupCount, List.find?] at hb
    omega
  · intro env st current hmp hcur hproc hcount
    simp only [crawlStep, hcur, hmp]
    rw [if_neg (by simp)]
    rw [if_neg hproc]
    rw [if_pos (by rw [lookupCount_bump_self]; omega)]

/-- C6 witness: the bound holds of a concrete constant-resolver run, and a
state whose current URL already has two counted visits is immediately
declared complete. -/
theorem c6_witness :
    ((runCrawl c6env 10 c6st).2.count c6url ≤ maxRevisits + 1) ∧
    crawlStep c6env c6st2 =
      .halt none (markComplete
        { c6st2 with visitedUrls := bumpVisit c6st2.visitedUrls c6url }) := by
  constructor
  · exact c6_visit_bound.1 c6env 10 c6st c6url rfl
  · exact c6_visit_bound.2 c6env c6st2 c6url rfl rfl (by decide) (by decide)

/-! ## C1 — uniqueness of `url` in the dataset, and idempotence

Branch equations for the per-anchor loop body, then fold lemmas. -/

theorem smLinkStep_none (s : List Assessment × List String × List String) (l : Anchor)
    (h : linkUrl l = none) : smLinkStep s l = s := by
  unfold smLinkStep
  rw [h]

theorem smLinkStep_mem (s : List Assessment × List String × List String) (l : Anchor)
    (url : String) (h : linkUrl l = some url) (hmem : url ∈ s.2.2) :
    smLinkStep s l = (s.1, s.2.1 ++ [url], s.2.2) := by
  simp only [smLinkStep, h]
  rw [if_pos hmem]

theorem smLinkStep_row (s : List Assessment × List String × List String) (l : Anchor)
    (url : String) (h : linkUrl l = some url) (hmem : url ∉ s.2.2)
    (hr : l.hasRow = true) :
    smLinkStep s l = (s.1 ++ [smMkStub l url], s.2.1 ++ [url], s.2.2 ++ [url]) := by
  simp only [smLinkStep, h]
  rw [if_neg hmem, if_pos hr]

theorem smLinkStep_norow (s : List Assessment × List String × List String) (l : Anchor)
    (url : String) (h : linkUrl l = some url) (hmem : url ∉ s.2.2)
    (hr : ¬ l.hasRow = true) :
    smLinkStep s l = (s.1, s.2.1 ++ [url], s.2.2 ++ [url]) := by
  simp only [smLinkStep, h]
  rw [if_neg hmem, if_neg hr]

theorem smMkStub_url (l : Anchor) (url : String) : (smMkStub l url).url = url := rfl

/-- The fold only appends to the assessment and found components, so a fold
from any state is the fold from the empty state, shifted. -/
theorem smLinkFold_shift :
    ∀ (links : List Anchor) (a : List Assessment) (f p : List String),
      List.foldl smLinkStep (a, f, p) links =
        (a ++ (List.foldl smLinkStep ([], [], p) links).1,
         f ++ (List.foldl smLinkStep ([], [], p) links).2.1,
         (List.foldl smLinkStep ([], [], p) links).2.2) := by
  intro links
  induction links with
  | nil => intro a f p; simp
  | cons l rest ih =>
    intro a f p
    rw [List.foldl_cons, List.foldl_cons]
    cases hu : linkUrl l with
    | none =>
      rw [smLinkStep_none _ l hu, smLinkStep_none _ l hu]
      exact ih a f p
    | some url =>
      by_cases hp : url ∈ p
      · rw [smLinkStep_mem (a, f, p) l url hu hp, smLinkStep_mem ([], [], p) l url hu hp]
        rw [ih a (f ++ [url]) p, ih [] ([] ++ [url]) p]
        simp
      · by_cases hr : l.hasRow = true
        · rw [smLinkStep_row (a, f, p) l url hu hp hr,
            smLinkStep_row ([], [], p) l url hu hp hr]
          rw [ih (a ++ [smMkStub l url]) (f ++ [url]) (p ++ [url]),
            ih ([] ++ [smMkStub l url]) ([] ++ [url]) (p ++ [url])]
          simp
        · rw [smLinkStep_norow (a, f, p) l url hu hp hr,
            smLinkStep_norow ([], [], p) l url hu hp hr]
          rw [ih a (f ++ [url]) (p ++ [url]), ih [] ([] ++ [url]) (p ++ [url])]
          simp

/-- Freshness: every assessment returned by the fold has a URL that was not in
the incoming `processed_urls` set. -/
theorem smLinkFold_fresh :
    ∀ (links : List Anchor) (p f : List String) (a : Assessment),
      a ∈ (List.foldl smLinkStep ([], f, p) links).1 → a.url ∉ p := by
  intro links
  induction links with
  | nil => intro p f a h; simp at h
  | cons l rest ih =>
    intro p f a h
    rw [List.foldl_cons] at h
    cases hu : linkUrl l with
    | none =>
      rw [smLinkStep_none _ l hu] at h
      exact ih p f a h
    | some url =>
      by_cases hp : url ∈ p
      · rw [smLinkStep_mem ([], f, p) l url hu hp] at h
        exact ih p (f ++ [url]) a h
      · by_cases hr : l.hasRow = true
        · rw [smLinkStep_row ([], f, p) l url hu hp hr] at h
          rw [show (([] : List Assessment) ++ [smMkStub l url], f ++ [url], p ++ [url]) =
            ([smMkStub l url], f ++ [url], p ++ [url]) from by simp] at h
          rw [smLinkFold_shift rest [smMkStub l url] (f ++ [url]) (p ++ [url])] at h
          rcases List.mem_append.1 h with h' | h'
          · rw [List.mem_singleton.1 h', smMkStub_url]
            exact hp
          · have := ih (p ++ [url]) ([] ++ [url]) a (by
              rw [smLinkFold_shift rest [] ([] ++ [url]) (p ++ [url])]
              simpa using h')
            intro hc
            exact this (List.mem_append.2 (Or.inl hc))
        · rw [smLinkStep_norow ([], f, p) l url hu hp hr] at h
          have := ih (p ++ [url]) (f ++ [url]) a h
          intro hc
          exact this (List.mem_append.2 (Or.inl hc))

/-- The processed set after the fold is the union of the incoming set and the
valid anchor URLs of the page. -/
theorem smLinkFold_processed :
    ∀ (links : List Anchor) (p f : List String) (u : String),
      u ∈ (List.foldl smLinkStep ([], f, p) links).2.2 ↔
        u ∈ p ∨ u ∈ links.filterMap linkUrl := by
  intro links
  induction links with
  | nil => intro p f u; simp
  | cons l rest ih =>
    intro p f u
    rw [List.foldl_cons]
    cases hu : linkUrl l with
    | none =>
      rw [smLinkStep_none _ l hu]
      rw [ih p f u]
      simp [List.filterMap_cons, hu]
    | some url =>
      by_cases hp : url ∈ p
      · rw [smLinkStep_mem ([], f, p) l url hu hp]
        rw [ih p (f ++ [url]) u]
        simp only [List.filterMap_cons, hu, List.mem_cons]
        constructor
        · rintro (h | h)
          · exact Or.inl h
          · exact Or.inr (Or.inr h)
        · rintro (h | h | h)
          · exact Or.inl h
          · exact Or.inl (h ▸ hp)
          · exact Or.inr h
      · by_cases hr : l.hasRow = true
        · rw [smLinkStep_row ([], f, p) l url hu hp hr]
          rw [smLinkFold_shift rest ([] ++ [smMkStub l url]) (f ++ [url]) (p ++ [url])]
          have := ih (p ++ [url]) ([] ++ [url]) u
          rw [smLinkFold_shift rest [] ([] ++ [url]) (p ++ [url])] at this
          simp only at this ⊢
          rw [this]
          simp only [List.mem_append, List.mem_singleton, List.filterMap_cons, hu,
            List.mem_cons]
          tauto
        · rw [smLinkStep_norow ([], f, p) l url hu hp hr]
          rw [ih (p ++ [url]) (f ++ [url]) u]
          simp only [List.mem_append, List.mem_singleton, List.filterMap_cons, hu,
            List.mem_cons]
          tauto

/-- The own-run invariant: starting from a set covering the accumulated
assessments, the fold yields a duplicate-free batch whose URLs are all
recorded, and the set only grows. -/
theorem smLinkFold_inv :
    ∀ (links : List Anchor) (acc : List Assessment) (f p : List String),
      (∀ x ∈ acc, x.url ∈ p) → (acc.map Assessment.url).Nodup →
      ((∀ x ∈ (List.foldl smLinkStep (acc, f, p) links).1,
          x.url ∈ (List.foldl smLinkStep (acc, f, p) links).2.2) ∧
        ((List.foldl smLinkStep (acc, f, p) links).1.map Assessment.url).Nodup ∧
        (∀ u ∈ p, u ∈ (List.foldl smLinkStep (acc, f, p) links).2.2)) := by
  intro links
  induction links with
  | nil => intro acc f p h1 h2; exact ⟨h1, h2, fun u hu => hu⟩
  | cons l rest ih =>
    intro acc f p h1 h2
    rw [List.foldl_cons]
    cases hu : linkUrl l with
    | none =>
      rw [smLinkStep_none _ l hu]
      exact ih acc f p h1 h2
    | some url =>
      by_cases hp : url ∈ p
      · rw [smLinkStep_mem (acc, f, p) l url hu hp]
        exact ih acc (f ++ [url]) p h1 h2
      · by_cases hr : l.hasRow = true
        · rw [smLinkStep_row (acc, f, p) l url hu hp hr]
          have hh1 : ∀ x ∈ acc ++ [smMkStub l url], x.url ∈ p ++ [url] := by
            intro x hx
            rcases List.mem_append.1 hx with hx' | hx'
            · exact List.mem_append.2 (Or.inl (h1 x hx'))
            · rw [List.mem_singleton.1 hx', smMkStub_url]
              exact List.mem_append.2 (Or.inr (List.mem_singleton.2 rfl))
          have hh2 : ((acc ++ [smMkStub l url]).map Assessment.url).Nodup := by
            rw [List.map_append]
            rw [List.nodup_append]
            refine ⟨h2, by simp, ?_⟩
            intro x hx
            simp only [List.map_cons, List.map_nil, smMkStub_url, List.mem_singleton]
            rcases List.mem_map.1 hx with ⟨y, hy, rfl⟩
            intro hc
            exact hp (hc ▸ h1 y hy)
          obtain ⟨A, B, C⟩ := ih (acc ++ [smMkStub l url]) (f ++ [url]) (p ++ [url]) hh1 hh2
          exact ⟨A, B, fun u hu' => C u (List.mem_append.2 (Or.inl hu'))⟩
        · rw [smLinkStep_norow (acc, f, p) l url hu hp hr]
          obtain ⟨A, B, C⟩ := ih acc (f ++ [url]) (p ++ [url])
            (fun x hx => List.mem_append.2 (Or.inl (h1 x hx))) h2
          exact ⟨A, B, fun u hu' => C u (List.mem_append.2 (Or.inl hu'))⟩

/-- Enrichment never changes the `url` field: the five update passes. -/
theorem smDescUpdate_url (soup : DetailSoup) (a : Assessment) :
    (smDescUpdate soup a).url = a.url := by
  unfold smDescUpdate
  cases soup.metaDescription <;> rfl

theorem smDurUpdate_url (soup : DetailSoup) (a : Assessment) :
    (smDurUpdate soup a).url = a.url := by
  simp only [smDurUpdate]
  repeat' split
  all_goals rfl

theorem smRemoteUpdate_url (soup : DetailSoup) (a : Assessment) :
    (smRemoteUpdate soup a).url = a.url := by
  simp only [smRemoteUpdate]
  repeat' split
  all_goals rfl

theorem smAdaptiveUpdate_url (soup : DetailSoup) (a : Assessment) :
    (smAdaptiveUpdate soup a).url = a.url := by
  simp only [smAdaptiveUpdate]
  repeat' split
  all_goals rfl

theorem smTypesUpdate_url (soup : DetailSoup) (a : Assessment) :
    (smTypesUpdate soup a).url = a.url := by
  simp only [smTypesUpdate]
  repeat' split
  all_goals rfl

/-- `extract_assessment_details` never changes the `url` field. -/
theorem extract_assessment_details_url (fetch : String → Option DetailSoup)
    (a : Assessment) : (extract_assessment_details fetch a).url = a.url := by
  unfold extract_assessment_details
  cases fetch a.url with
  | none => rfl
  | some soup =>
    rw [smTypesUpdate_url, smAdaptiveUpdate_url, smRemoteUpdate_url, smDurUpdate_url,
      smDescUpdate_url]

/-- `extract_assessment_links` never returns a stub whose URL was already in
the incoming `processed_urls` set. -/
theorem extract_links_fresh (soup : ListingSoup) (sec : SectionKind)
    (p : List String) (a : Assessment)
    (h : a ∈ (extract_assessment_links soup sec p).1) : a.url ∉ p := by
  cases hl : smLocate soup sec with
  | none =>
    simp only [extract_assessment_links, hl] at h
    simp at h
  | some links =>
    simp only [extract_assessment_links, hl] at h
    exact smLinkFold_fresh links p [] a h

/-- `extract_assessment_links`: every returned stub's URL is recorded in the
outgoing set, the batch has no duplicate URLs, and the set only grows. -/
theorem extract_links_inv (soup : ListingSoup) (sec : SectionKind) (p : List String) :
    (∀ a ∈ (extract_assessment_links soup sec p).1,
        a.url ∈ (extract_assessment_links soup sec p).2.2) ∧
    ((extract_assessment_links soup sec p).1.map Assessment.url).Nodup ∧
    (∀ u ∈ p, u ∈ (extract_assessment_links soup sec p).2.2) := by
  cases hl : smLocate soup sec with
  | none =>
    simp only [extract_assessment_links, hl]
    exact ⟨by simp, by simp, fun u hu => hu⟩
  | some links =>
    simp only [extract_assessment_links, hl]
    exact smLinkFold_inv links [] [] p (by simp) (by simp)

/-- Two runs of the per-anchor fold against the same page: if the second run's
incoming set is the first's plus a cover `D` of everything the first run
emitted, the second run emits nothing and the relation persists. -/
theorem smLinkFold_tworun :
    ∀ (links : List Anchor) (p1 p2 D : List String),
      (∀ u, u ∈ p2 ↔ u ∈ p1 ∨ u ∈ D) →
      (∀ a ∈ (List.foldl smLinkStep ([], [], p1) links).1, a.url ∈ D) →
      (List.foldl smLinkStep ([], [], p2) links).1 = [] ∧
      (∀ u, u ∈ (List.foldl smLinkStep ([], [], p2) links).2.2 ↔
        u ∈ (List.foldl smLinkStep ([], [], p1) links).2.2 ∨ u ∈ D) := by
  intro links
  induction links with
  | nil =>
    intro p1 p2 D hrel _
    exact ⟨rfl, hrel⟩
  | cons l rest ih =>
    intro p1 p2 D hrel hD
    rw [List.foldl_cons] at hD ⊢
    rw [List.foldl_cons]
    cases hu : linkUrl l with
    | none =>
      rw [smLinkStep_none _ l hu] at hD ⊢
      rw [smLinkStep_none _ l hu]
      exact ih p1 p2 D hrel hD
    | some url =>
      by_cases hp1 : url ∈ p1
      · have hp2 : url ∈ p2 := (hrel url).2 (Or.inl hp1)
        rw [smLinkStep_mem ([], [], p1) l url hu hp1] at hD ⊢
        rw [smLinkStep_mem ([], [], p2) l url hu hp2]
        have hD1 : ∀ a ∈ (List.foldl smLinkStep ([], [url], p1) rest).1,
            a.url ∈ D := hD
        have hD2 : ∀ a ∈ (List.foldl smLinkStep ([], [], p1) rest).1, a.url ∈ D := by
          intro a ha
          apply hD1
          rw [smLinkFold_shift rest [] [url] p1]
          simpa using ha
        obtain ⟨hA, hB⟩ := ih p1 p2 D hrel hD2
        have e1 : (List.foldl smLinkStep ([], [url], p2) rest).1 =
            (List.foldl smLinkStep ([], [], p2) rest).1 := by
          rw [smLinkFold_shift rest [] [url] p2]
          simp
        have e2 : (List.foldl smLinkStep ([], [url], p2) rest).2.2 =
            (List.foldl smLinkStep ([], [], p2) rest).2.2 := by
          rw [smLinkFold_shift rest [] [url] p2]
        have e3 : (List.foldl smLinkStep ([], [url], p1) rest).2.2 =
            (List.foldl smLinkStep ([], [], p1) rest).2.2 := by
          rw [smLinkFold_shift rest [] [url] p1]
        have main : (List.foldl smLinkStep ([], [url], p2) rest).1 = [] ∧
            (∀ u, u ∈ (List.foldl smLinkStep ([], [url], p2) rest).2.2 ↔
              u ∈ (List.foldl smLinkStep ([], [url], p1) rest).2.2 ∨ u ∈ D) := by
          refine ⟨e1.trans hA, ?_⟩
          intro u
          rw [e2, e3]
          exact hB u
        exact main
      · by_cases hr : l.hasRow = true
        · rw [smLinkStep_row ([], [], p1) l url hu hp1 hr] at hD ⊢
          have hD1 : ∀ a ∈ (List.foldl smLinkStep
              ([smMkStub l url], [url], p1 ++ [url]) rest).1, a.url ∈ D := hD
          rw [smLinkFold_shift rest [smMkStub l url] [url] (p1 ++ [url])] at hD1
          have hstub : url ∈ D := by
            have := hD1 (smMkStub l url)
              (List.mem_append.2 (Or.inl (List.mem_singleton.2 rfl)))
            rwa [smMkStub_url] at this
          have hD2 : ∀ a ∈ (List.foldl smLinkStep ([], [], p1 ++ [url]) rest).1,
              a.url ∈ D := by
            intro a ha
            exact hD1 a (List.mem_append.2 (Or.inr ha))
          have hp2 : url ∈ p2 := (hrel url).2 (Or.inr hstub)
          rw [smLinkStep_mem ([], [], p2) l url hu hp2]
          have hrel2 : ∀ u, u ∈ p2 ↔ u ∈ p1 ++ [url] ∨ u ∈ D := by
            intro u
            rw [hrel u]
            constructor
            · rintro (h | h)
              · exact Or.inl (List.mem_append.2 (Or.inl h))
              · exact Or.inr h
            · rintro (h | h)
              · rcases List.mem_append.1 h with h' | h'
                · exact Or.inl h'
                · exact Or.inr ((List.mem_singleton.1 h') ▸ hstub)
              · exact Or.inr h
          obtain ⟨hA, hB⟩ := ih (p1 ++ [url]) p2 D hrel2 hD2
          have e1 : (List.foldl smLinkStep ([], [url], p2) rest).1 =
              (List.foldl smLinkStep ([], [], p2) rest).1 := by
            rw [smLinkFold_shift rest [] [url] p2]
            simp
          have e2 : (List.foldl smLinkStep ([], [url], p2) rest).2.2 =
              (List.foldl smLinkStep ([], [], p2) rest).2.2 := by
            rw [smLinkFold_shift rest [] [url] p2]
          have e3 : (List.foldl smLinkStep
              ([smMkStub l url], [url], p1 ++ [url]) rest).2.2 =
              (List.foldl smLinkStep ([], [], p1 ++ [url]) rest).2.2 := by
            rw [smLinkFold_shift rest [smMkStub l url] [url] (p1 ++ [url])]
          have main : (List.foldl smLinkStep ([], [url], p2) rest).1 = [] ∧
              (∀ u, u ∈ (List.foldl smLinkStep ([], [url], p2) rest).2.2 ↔
                u ∈ (List.foldl smLinkStep
                  ([smMkStub l url], [url], p1 ++ [url]) rest).2.2 ∨ u ∈ D) := by
            refine ⟨e1.trans hA, ?_⟩
            intro u
            rw [e2, e3]
            exact hB u
          exact main
        · rw [smLinkStep_norow ([], [], p1) l url hu hp1 hr] at hD ⊢
          have hD1 : ∀ a ∈ (List.foldl smLinkStep ([], [url], p1 ++ [url]) rest).1,
              a.url ∈ D := hD
          have hD2 : ∀ a ∈ (List.foldl smLinkStep ([], [], p1 ++ [url]) rest).1,
              a.url ∈ D := by
            intro a ha
            apply hD1
            rw [smLinkFold_shift rest [] [url] (p1 ++ [url])]
            simpa using ha
          by_cases hp2 : url ∈ p2
          · have hurlD : url ∈ D := by
              rcases (hrel url).1 hp2 with h | h
              · exact absurd h hp1
              · exact h
            rw [smLinkStep_mem ([], [], p2) l url hu hp2]
            have hrel2 : ∀ u, u ∈ p2 ↔ u ∈ p1 ++ [url] ∨ u ∈ D := by
              intro u
              rw [hrel u]
              constructor
              · rintro (h | h)
                · exact Or.inl (List.mem_append.2 (Or.inl h))
                · exact Or.inr h
              · rintro (h | h)
                · rcases List.mem_append.1 h with h' | h'
                  · exact Or.inl h'
                  · exact Or.inr ((List.mem_singleton.1 h') ▸ hurlD)
                · exact Or.inr h
            obtain ⟨hA, hB⟩ := ih (p1 ++ [url]) p2 D hrel2 hD2
            have e1 : (List.foldl smLinkStep ([], [url], p2) rest).1 =
                (List.foldl smLinkStep ([], [], p2) rest).1 := by
              rw [smLinkFold_shift rest [] [url] p2]
              simp
            have e2 : (List.foldl smLinkStep ([], [url], p2) rest).2.2 =
                (List.foldl smLinkStep ([], [], p2) rest).2.2 := by
              rw [smLinkFold_shift rest [] [url] p2]
            have e3 : (List.foldl smLinkStep ([], [url], p1 ++ [url]) rest).2.2 =
                (List.foldl smLinkStep ([], [], p1 ++ [url]) rest).2.2 := by
              rw [smLinkFold_shift rest [] [url] (p1 ++ [url])]
            have main : (List.foldl smLinkStep ([], [url], p2) rest).1 = [] ∧
                (∀ u, u ∈ (List.foldl smLinkStep ([], [url], p2) rest).2.2 ↔
                  u ∈ (List.foldl smLinkStep ([], [url], p1 ++ [url]) rest).2.2 ∨
                    u ∈ D) := by
              refine ⟨e1.trans hA, ?_⟩
              intro u
              rw [e2, e3]
              exact hB u
            exact main
          · rw [smLinkStep_norow ([], [], p2) l url hu hp2 hr]
            have hrel2 : ∀ u, u ∈ p2 ++ [url] ↔ u ∈ p1 ++ [url] ∨ u ∈ D := by
              intro u
              constructor
              · intro h
                rcases List.mem_append.1 h with h | h
                · rcases (hrel u).1 h with h' | h'
                  · exact Or.inl (List.mem_append.2 (Or.inl h'))
                  · exact Or.inr h'
                · exact Or.inl (List.mem_append.2 (Or.inr h))
              · intro h
                rcases h with h | h
                · rcases List.mem_append.1 h with h' | h'
                  · exact List.mem_append.2 (Or.inl ((hrel u).2 (Or.inl h')))
                  · exact List.mem_append.2 (Or.inr h')
                · exact List.mem_append.2 (Or.inl ((hrel u).2 (Or.inr h)))
            obtain ⟨hA, hB⟩ := ih (p1 ++ [url]) (p2 ++ [url]) D hrel2 hD2
            have e1 : (List.foldl smLinkStep ([], [url], p2 ++ [url]) rest).1 =
                (List.foldl smLinkStep ([], [], p2 ++ [url]) rest).1 := by
              rw [smLinkFold_shift rest [] [url] (p2 ++ [url])]
              simp
            have e2 : (List.foldl smLinkStep ([], [url], p2 ++ [url]) rest).2.2 =
                (List.foldl smLinkStep ([], [], p2 ++ [url]) rest).2.2 := by
              rw [smLinkFold_shift rest [] [url] (p2 ++ [url])]
            have e3 : (List.foldl smLinkStep ([], [url], p1 ++ [url]) rest).2.2 =
                (List.foldl smLinkStep ([], [], p1 ++ [url]) rest).2.2 := by
              rw [smLinkFold_shift rest [] [url] (p1 ++ [url])]
            have main : (List.foldl smLinkStep ([], [url], p2 ++ [url]) rest).1 = [] ∧
                (∀ u, u ∈ (List.foldl smLinkStep ([], [url], p2 ++ [url]) rest).2.2 ↔
                  u ∈ (List.foldl smLinkStep ([], [url], p1 ++ [url]) rest).2.2 ∨
                    u ∈ D) := by
              refine ⟨e1.trans hA, ?_⟩
              intro u
              rw [e2, e3]
              exact hB u
            exact main

/-- Page level: a second extraction pass over the same page emits nothing when
the incoming set covers the first pass's output. -/
theorem extract_links_tworun (soup : ListingSoup) (sec : SectionKind)
    (p1 p2 D : List String)
    (hrel : ∀ u, u ∈ p2 ↔ u ∈ p1 ∨ u ∈ D)
    (hD : ∀ a ∈ (extract_assessment_links soup sec p1).1, a.url ∈ D) :
    (extract_assessment_links soup sec p2).1 = [] ∧
    (∀ u, u ∈ (extract_assessment_links soup sec p2).2.2 ↔
      u ∈ (extract_assessment_links soup sec p1).2.2 ∨ u ∈ D) := by
  cases hl : smLocate soup sec with
  | none =>
    simp only [extract_assessment_links, hl] at hD ⊢
    exact ⟨trivial, hrel⟩
  | some links =>
    simp only [extract_assessment_links, hl] at hD ⊢
    exact smLinkFold_tworun links p1 p2 D hrel hD

theorem smCrawlRun_cons (detail : String → Option DetailSoup)
    (page : ListingSoup × SectionKind) (catalog : List (ListingSoup × SectionKind))
    (st : List Assessment × List String) :
    smCrawlRun detail (page :: catalog) st =
      smCrawlRun detail catalog (smPageStep detail st page) := rfl

/-- The run only appends to the dataset, and the processed set it produces
does not depend on the incoming dataset. -/
theorem smCrawlRun_shift (detail : String → Option DetailSoup) :
    ∀ (catalog : List (ListingSoup × SectionKind)) (ds : List Assessment)
      (p : List String),
      (smCrawlRun detail catalog (ds, p)).1 =
        ds ++ (smCrawlRun detail catalog ([], p)).1 ∧
      (smCrawlRun detail catalog (ds, p)).2 = (smCrawlRun detail catalog ([], p)).2 := by
  intro catalog
  induction catalog with
  | nil => intro ds p; exact ⟨(List.append_nil ds).symm, rfl⟩
  | cons page rest ih =>
    intro ds p
    rw [smCrawlRun_cons, smCrawlRun_cons]
    have hpair1 : smPageStep detail (ds, p) page =
        (ds ++ (extract_assessment_links page.1 page.2 p).1.map
            (extract_assessment_details detail),
          (extract_assessment_links page.1 page.2 p).2.2) := rfl
    have hpair2 : smPageStep detail ([], p) page =
        ((extract_assessment_links page.1 page.2 p).1.map
            (extract_assessment_details detail),
          (extract_assessment_links page.1 page.2 p).2.2) := rfl
    rw [hpair1, hpair2]
    obtain ⟨i1, i2⟩ := ih (ds ++ (extract_assessment_links page.1 page.2 p).1.map
        (extract_assessment_details detail))
      ((extract_assessment_links page.1 page.2 p).2.2)
    obtain ⟨j1, j2⟩ := ih ((extract_assessment_links page.1 page.2 p).1.map
        (extract_assessment_details detail))
      ((extract_assessment_links page.1 page.2 p).2.2)
    constructor
    · rw [i1, j1, List.append_assoc]
    · rw [i2, j2]

/-- The orchestrator invariant: starting from a processed set covering the
dataset's URLs, the run keeps the dataset's `url` column duplicate-free,
covered by the final processed set, which only grows. -/
theorem smCrawlRun_inv (detail : String → Option DetailSoup) :
    ∀ (catalog : List (ListingSoup × SectionKind)) (ds : List Assessment)
      (p : List String),
      (∀ x ∈ ds, x.url ∈ p) → (ds.map Assessment.url).Nodup →
      ((∀ x ∈ (smCrawlRun detail catalog (ds, p)).1,
          x.url ∈ (smCrawlRun detail catalog (ds, p)).2) ∧
        ((smCrawlRun detail catalog (ds, p)).1.map Assessment.url).Nodup ∧
        (∀ u ∈ p, u ∈ (smCrawlRun detail catalog (ds, p)).2)) := by
  intro catalog
  induction catalog with
  | nil => intro ds p h1 h2; exact ⟨h1, h2, fun u hu => hu⟩
  | cons page rest ih =>
    intro ds p h1 h2
    rw [smCrawlRun_cons]
    have hpair : smPageStep detail (ds, p) page =
        (ds ++ (extract_assessment_links page.1 page.2 p).1.map
            (extract_assessment_details detail),
          (extract_assessment_links page.1 page.2 p).2.2) := rfl
    rw [hpair]
    obtain ⟨e1, e2, e3⟩ := extract_links_inv page.1 page.2 p
    have hmap : ((extract_assessment_links page.1 page.2 p).1.map
        (extract_assessment_details detail)).map Assessment.url =
        (extract_assessment_links page.1 page.2 p).1.map Assessment.url := by
      rw [List.map_map]
      exact List.map_congr_left (fun y _ => extract_assessment_details_url detail y)
    have h1' : ∀ x ∈ ds ++ (extract_assessment_links page.1 page.2 p).1.map
        (extract_assessment_details detail),
        x.url ∈ (extract_assessment_links page.1 page.2 p).2.2 := by
      intro x hx
      rcases List.mem_append.1 hx with hx' | hx'
      · exact e3 x.url (h1 x hx')
      · rcases List.mem_map.1 hx' with ⟨y, hy, rfl⟩
        rw [extract_assessment_details_url]
        exact e1 y hy
    have h2' : ((ds ++ (extract_assessment_links page.1 page.2 p).1.map
        (extract_assessment_details detail)).map Assessment.url).Nodup := by
      rw [List.map_append, hmap, List.nodup_append]
      refine ⟨h2, e2, ?_⟩
      intro u hu hv
      rcases List.mem_map.1 hu with ⟨x, hx, rfl⟩
      rcases List.mem_map.1 hv with ⟨y, hy, he⟩
      exact extract_links_fresh page.1 page.2 p y hy (he.symm ▸ h1 x hx)
    obtain ⟨A, B, C⟩ := ih (ds ++ (extract_assessment_links page.1 page.2 p).1.map
        (extract_assessment_details detail))
      ((extract_assessment_links page.1 page.2 p).2.2) h1' h2'
    exact ⟨A, B, fun u hu => C u (e3 u hu)⟩

/-- A second run over the same catalog: if the incoming processed set covers
everything the first run produced, the second run appends nothing. -/
theorem smCrawlRun_tworun (detail : String → Option DetailSoup) :
    ∀ (catalog : List (ListingSoup × SectionKind)) (p1 p2 D : List String),
      (∀ u, u ∈ p2 ↔ u ∈ p1 ∨ u ∈ D) →
      (∀ a ∈ (smCrawlRun detail catalog ([], p1)).1, a.url ∈ D) →
      (smCrawlRun detail catalog ([], p2)).1 = [] ∧
      (∀ u, u ∈ (smCrawlRun detail catalog ([], p2)).2 ↔
        u ∈ (smCrawlRun detail catalog ([], p1)).2 ∨ u ∈ D) := by
  intro catalog
  induction catalog with
  | nil => intro p1 p2 D hrel _; exact ⟨rfl, hrel⟩
  | cons page rest ih =>
    intro p1 p2 D hrel hD
    rw [smCrawlRun_cons] at hD ⊢
    rw [smCrawlRun_cons]
    have hpair1 : smPageStep detail ([], p1) page =
        ((extract_assessment_links page.1 page.2 p1).1.map
            (extract_assessment_details detail),
          (extract_assessment_links page.1 page.2 p1).2.2) := rfl
    have hpair2 : smPageStep detail ([], p2) page =
        ((extract_assessment_links page.1 page.2 p2).1.map
            (extract_assessment_details detail),
          (extract_assessment_links page.1 page.2 p2).2.2) := rfl
    rw [hpair1] at hD ⊢
    rw [hpair2]
    obtain ⟨s1, s2⟩ := smCrawlRun_shift detail rest
      ((extract_assessment_links page.1 page.2 p1).1.map
        (extract_assessment_details detail))
      ((extract_assessment_links page.1 page.2 p1).2.2)
    rw [s1] at hD
    have hD_ex : ∀ y ∈ (extract_assessment_links page.1 page.2 p1).1, y.url ∈ D := by
      intro y hy
      have := hD (extract_assessment_details detail y)
        (List.mem_append.2 (Or.inl (List.mem_map.2 ⟨y, hy, rfl⟩)))
      rwa [extract_assessment_details_url] at this
    have hD_rest : ∀ a ∈ (smCrawlRun detail rest
        ([], (extract_assessment_links page.1 page.2 p1).2.2)).1, a.url ∈ D := by
      intro a ha
      exact hD a (List.mem_append.2 (Or.inr ha))
    obtain ⟨hE2, hrel2⟩ := extract_links_tworun page.1 page.2 p1 p2 D hrel hD_ex
    obtain ⟨hA, hB⟩ := ih ((extract_assessment_links page.1 page.2 p1).2.2)
      ((extract_assessment_links page.1 page.2 p2).2.2) D hrel2 hD_rest
    constructor
    · simp only [hE2, List.map_nil]
      exact hA
    · intro u
      simp only [hE2, List.map_nil]
      rw [s2]
      exact hB u

/-- C1: for every run of the crawler, no two records in the persisted dataset
share the same `url` — `extract_assessment_links` never returns a stub whose
URL is already in the global processed-URL set and records each stub's URL in
that set immediately, so a dataset built from empty state has a
duplicate-free `url` column, and running the crawler a second time against
the unchanged catalog, seeded with the first run's dataset and its `url`
column as the processed set, yields exactly the first run's dataset (no
duplicate `url` values and the same record count as a single run). -/
theorem c1_dataset_url_unique_idempotent (detail : String → Option DetailSoup)
    (catalog : List (ListingSoup × SectionKind)) :
    ((smCrawlRun detail catalog ([], [])).1.map Assessment.url).Nodup ∧
    (smCrawlRun detail catalog
        ((smCrawlRun detail catalog ([], [])).1,
          urlsOf (smCrawlRun detail catalog ([], [])).1)).1 =
      (smCrawlRun detail catalog ([], [])).1 ∧
    (∀ (soup : ListingSoup) (sec : SectionKind) (p : List String) (a : Assessment),
      a ∈ (extract_assessment_links soup sec p).1 →
      a.url ∉ p ∧ a.url ∈ (extract_assessment_links soup sec p).2.2) := by
  obtain ⟨hcov, hnd, _⟩ := smCrawlRun_inv detail catalog [] []
    (by intro x hx; simp at hx) (by simp)
  refine ⟨hnd, ?_, ?_⟩
  · obtain ⟨hsh1, _⟩ := smCrawlRun_shift detail catalog
      (smCrawlRun detail catalog ([], [])).1
      (urlsOf (smCrawlRun detail catalog ([], [])).1)
    rw [hsh1]
    have hrel : ∀ u, u ∈ urlsOf (smCrawlRun detail catalog ([], [])).1 ↔
        u ∈ ([] : List String) ∨ u ∈ urlsOf (smCrawlRun detail catalog ([], [])).1 := by
      intro u
      simp
    have hD : ∀ a ∈ (smCrawlRun detail catalog ([], [])).1,
        a.url ∈ urlsOf (smCrawlRun detail catalog ([], [])).1 := by
      intro a ha
      exact List.mem_map.2 ⟨a, ha, rfl⟩
    obtain ⟨hA, _⟩ := smCrawlRun_tworun detail catalog []
      (urlsOf (smCrawlRun detail catalog ([], [])).1)
      (urlsOf (smCrawlRun detail catalog ([], [])).1) hrel hD
    rw [hA, List.append_nil]
  · intro soup sec p a ha
    exact ⟨extract_links_fresh soup sec p a ha, (extract_links_inv soup sec p).1 a ha⟩

/-- C1 witness: on a concrete one-page catalog the single run's `url` column
is duplicate-free, a second run seeded with its output reproduces it exactly,
and the concrete stub extracted from the page is fresh and recorded. -/
theorem c1_witness :
    ((smCrawlRun (fun _ => none) c1catalog ([], [])).1.map Assessment.url).Nodup ∧
    (smCrawlRun (fun _ => none) c1catalog
        ((smCrawlRun (fun _ => none) c1catalog ([], [])).1,
          urlsOf (smCrawlRun (fun _ => none) c1catalog ([], [])).1)).1 =
      (smCrawlRun (fun _ => none) c1catalog ([], [])).1 ∧
    ((smMkStub c1anchor (urljoinB "/solutions/products/v/")).url ∉ ([] : List String) ∧
      (smMkStub c1anchor (urljoinB "/solutions/products/v/")).url ∈
        (extract_assessment_links c1soup .individual []).2.2) := by
  obtain ⟨h1, h2, h3⟩ := c1_dataset_url_unique_idempotent (fun _ => none) c1catalog
  exact ⟨h1, h2, h3 c1soup .individual []
    (smMkStub c1anchor (urljoinB "/solutions/products/v/")) (by decide)⟩

end SHL
